import Mathlib

/-!
Shallow embedding of the cart-normalization and Square-orchestration code of this
repository (src/pages/api/orders.ts, src/pages/api/checkout.ts, and the unnamed
checkout variant), together with theorems settling the frozen claims about it.

JavaScript numbers are modelled as `JNum` (NaN, infinities, or a finite rational);
untyped JSON values as `JsVal`; JS `Map`s as insertion-ordered association lists.
-/

/-- A JavaScript number: NaN, one of the signed infinities, or a finite value
(modelled as a rational; the code never relies on rounding of floats). -/
inductive JNum where
  | nan
  | inf
  | ninf
  | fin (q : ℚ)
deriving DecidableEq, Repr

/-- An untyped JavaScript value, covering the cases the embedded code inspects
(`typeof x === "string"` checks, `Number(x)` coercion). -/
inductive JsVal where
  | undef
  | nullv
  | bool (b : Bool)
  | num (n : JNum)
  | str (s : String)
deriving DecidableEq, Repr

/-- JS whitespace as recognised by `String.prototype.trim` (ASCII subset modelled). -/
def isWsChar (c : Char) : Bool :=
  c = ' ' || c = '\t' || c = '\n' || c = '\r' || c = '\x0b' || c = '\x0c'

/-- Drop leading and trailing whitespace from a character list. -/
def trimList (l : List Char) : List Char :=
  ((l.dropWhile isWsChar).reverse.dropWhile isWsChar).reverse

/-- Model of JS `String.prototype.trim`. -/
def jsTrim (s : String) : String := String.mk (trimList s.data)

/-- Numeric value of a digit list (most significant first). -/
def digitsToNat (l : List Char) : Nat :=
  l.foldl (fun n c => n * 10 + (c.toNat - 48)) 0

/-- Parse an unsigned decimal literal (`digits`, `digits.digits`, `.digits`,
`digits.`); anything else yields `none`. -/
def parseUnsigned (l : List Char) : Option ℚ :=
  let ip := l.takeWhile Char.isDigit
  let rest := l.dropWhile Char.isDigit
  match rest with
  | [] => if ip.isEmpty then none else some (mkRat (digitsToNat ip) 1)
  | c :: frac =>
    if c = '.' && frac.all Char.isDigit && !(ip.isEmpty && frac.isEmpty) then
      some (mkRat (digitsToNat ip * 10 ^ frac.length + digitsToNat frac) (10 ^ frac.length))
    else none

/-- Modelled from JS semantics: `Number(string)`. The whole string (after
trimming) must be a simple signed decimal literal; the empty string is `0`;
anything else (including exponent/hex forms, not used by any claim) is `NaN`. -/
def parseNumStr (s : String) : JNum :=
  match trimList s.data with
  | [] => .fin 0
  | '-' :: rest =>
    match parseUnsigned rest with
    | some q => .fin (-q)
    | none => .nan
  | '+' :: rest =>
    match parseUnsigned rest with
    | some q => .fin q
    | none => .nan
  | l =>
    match parseUnsigned l with
    | some q => .fin q
    | none => .nan

/-- Modelled from JS semantics: the `Number(x)` coercion. -/
def jsToNumber : JsVal → JNum
  | .undef => .nan
  | .nullv => .fin 0
  | .bool b => .fin (if b then 1 else 0)
  | .num n => n
  | .str s => parseNumStr s

/-- `normalizeQuantity` (orders.ts lines 38–42, checkout.ts lines 41–45, both
variants identical): parse as a number; if not finite or ≤ 0 return 1;
otherwise `Math.floor`. -/
def normalizeQuantity (rawQuantity : JsVal) : Int :=
  match jsToNumber rawQuantity with
  | .fin q => if q ≤ 0 then 1 else q.floor
  | _ => 1

/-- A structured modifier record as the orders endpoint reads it: the
`catalog_object_id` field when it is a string (`none` models absent or
non-string), and the raw `quantity` field. -/
structure RawModifier where
  catalog_object_id : Option String
  quantity : JsVal
deriving DecidableEq, Repr

/-- One element of a raw `modifiers` array: either an object (further
inspected) or a non-object value, which the code maps to `null` and skips. -/
inductive ModEntry where
  | obj (m : RawModifier)
  | nonObj
deriving DecidableEq, Repr

/-- A raw cart line as the orders endpoint reads it. `none` on a field models
absent / wrongly-typed (non-string, non-array) data. -/
structure IncomingCartLine where
  catalog_object_id : Option String
  modifiers : Option (List ModEntry)
  modifier_catalog_object_ids : Option (List (Option String))
  quantity : JsVal
deriving DecidableEq, Repr

/-- The check-then-set pattern every grouping loop of the source uses on its
JS `Map`, on an insertion-ordered association list: when the key is present,
combine the new value into the stored entry in place; otherwise append the
new entry at the end. -/
def upsert {β : Type} (bump : β → β → β) (m : List (String × β)) (k : String) (v : β) :
    List (String × β) :=
  if (m.find? (fun p => decide (p.1 = k))).isSome then
    m.map (fun p => if p.1 = k then (p.1, bump p.2 v) else p)
  else m ++ [(k, v)]

/-- One iteration of a grouping loop: compute the kept (key, value) of the
current element, skipping it when it is filtered out, and upsert it. -/
def upsertStep {α β : Type} (bump : β → β → β) (keyval : α → Option (String × β))
    (m : List (String × β)) (x : α) : List (String × β) :=
  match keyval x with
  | none => m
  | some (k, v) => upsert bump m k v

/-- JS `Map.set(k, (m.get(k) || 0) + q)` on an insertion-ordered association
list: update in place when the key is present, else append at the end. -/
def mapAdd (m : List (String × Int)) (k : String) (q : Int) : List (String × Int) :=
  upsert (fun w q => w + q) m k q

/-- Strict lexicographic comparison of character lists, modelling the string
comparison JS sorting uses (code-unit order; the locale-aware comparator of
the source coincides with it on the catalog-id alphabet). -/
def listCharLt : List Char → List Char → Bool
  | [], [] => false
  | [], _ :: _ => true
  | _ :: _, [] => false
  | a :: as, b :: bs => decide (a < b) || (decide (a = b) && listCharLt as bs)

/-- Strict string comparison used by the modifier sort. -/
def strLtB (a b : String) : Bool := listCharLt a.data b.data

/-- The sort relation on modifier entries (source: compare by
`catalogObjectId`; ties broken by quantity, which never occurs since map keys
are distinct — the tiebreak only makes the relation antisymmetric). -/
def entryLeP (a b : String × Int) : Prop :=
  strLtB a.1 b.1 = true ∨ (a.1 = b.1 ∧ a.2 ≤ b.2)

instance : DecidableRel entryLeP := fun a b => by
  unfold entryLeP; infer_instance

/-- Sort modifier entries by catalog id (orders.ts line 80). -/
def sortEntries (l : List (String × Int)) : List (String × Int) :=
  List.insertionSort entryLeP l

/-- The kept (catalog id, quantity) contribution of one structured modifier
entry: skipped when not an object or when its trimmed id is empty
(orders.ts lines 48–58). -/
def modKept (me : ModEntry) : Option (String × Int) :=
  match me with
  | .nonObj => none
  | .obj m =>
    let catalogObjectId := jsTrim (m.catalog_object_id.getD "")
    if catalogObjectId = "" then none
    else some (catalogObjectId, normalizeQuantity m.quantity)

/-- First loop of `normalizeModifiers` (orders.ts lines 47–64): group the
structured `modifiers` entries, summing quantities per catalog id. -/
def structGroup (mods : List ModEntry) : List (String × Int) :=
  mods.foldl (upsertStep (fun w q => w + q) modKept) []

/-- The kept contribution of one flat `modifier_catalog_object_ids` element:
quantity 1, skipped when not a string or trimming to empty
(orders.ts lines 67–71). -/
def flatKept (mid : Option String) : Option (String × Int) :=
  let catalogObjectId := jsTrim (mid.getD "")
  if catalogObjectId = "" then none else some (catalogObjectId, 1)

/-- Second loop of `normalizeModifiers` (orders.ts lines 66–73): group the
flat id list, each kept element contributing quantity 1. -/
def flatGroup (ids : List (Option String)) : List (String × Int) :=
  ids.foldl (upsertStep (fun w q => w + q) flatKept) []

/-- `normalizeModifiers` (orders.ts lines 44–81): group the structured list;
if that map is empty and a flat id array is present, group the flat list
instead; finally sort the entries by catalog id. -/
def normalizeModifiers (rawLine : IncomingCartLine) : List (String × Int) :=
  let g1 := match rawLine.modifiers with
    | some ms => structGroup ms
    | none => []
  let g := if g1.isEmpty then
      match rawLine.modifier_catalog_object_ids with
      | some ids => flatGroup ids
      | none => g1
    else g1
  sortEntries g

/-- A normalized line of the orders variant (orders.ts lines 20–27); a
modifier entry is a (catalog id, quantity) pair. -/
structure NormalizedLine where
  catalogObjectId : String
  modifierEntries : List (String × Int)
  quantity : Int
deriving DecidableEq, Repr

/-- The `"<id>x<qty>"` fragment of the grouping key (orders.ts line 97). -/
def entrySig (e : String × Int) : String := e.1 ++ "x" ++ toString e.2

/-- The grouping key (orders.ts lines 96–98):
`catalogObjectId + "::" + entries.map(sig).join(",")`. -/
def lineKeyStr (catalogObjectId : String) (entries : List (String × Int)) : String :=
  catalogObjectId ++ "::" ++ String.intercalate "," (entries.map entrySig)

/-- Processing of one raw line before grouping (orders.ts lines 86–98):
trim the catalog id (dropping the line when empty), normalize modifiers and
quantity, and compute the grouping key. -/
def normLineOf (line : IncomingCartLine) : Option (String × NormalizedLine) :=
  let catalogObjectId := jsTrim (line.catalog_object_id.getD "")
  if catalogObjectId = "" then none
  else
    let modifierEntries := normalizeModifiers line
    let quantity := normalizeQuantity line.quantity
    some (lineKeyStr catalogObjectId modifierEntries,
      ⟨catalogObjectId, modifierEntries, quantity⟩)

/-- One iteration of the grouping loop (orders.ts lines 99–111): bump the
quantity of an existing key in place, or append a new keyed line. -/
def normStep (grouped : List (String × NormalizedLine)) (line : IncomingCartLine) :
    List (String × NormalizedLine) :=
  upsertStep (fun old nl => { old with quantity := old.quantity + nl.quantity })
    normLineOf grouped line

/-- `normalizeCartLines` (orders.ts lines 83–114): fold the grouping loop over
the cart and return the grouped lines in first-insertion order. -/
def normalizeCartLines (cart : List IncomingCartLine) : List NormalizedLine :=
  (cart.foldl normStep []).map Prod.snd

/-! ## The checkout variant of the normalizer

`checkout.ts` lines 41–87 and the unnamed variant lines 40–86 share this
normalizer: it accepts only the flat `modifier_catalog_object_ids` shape,
set-deduplicates the trimmed ids and sorts them. -/

namespace Checkout

/-- A raw cart line as the checkout endpoints read it. -/
structure IncomingCartLine where
  catalog_object_id : Option String
  modifier_catalog_object_ids : Option (List (Option String))
  quantity : JsVal
deriving DecidableEq, Repr

/-- A normalized line of the checkout variant. -/
structure NormalizedLine where
  catalogObjectId : String
  modifierIds : List String
  quantity : Int
deriving DecidableEq, Repr

/-- Helper for `jsSetDedup`: drop elements already seen. -/
def jsSetDedupAux (seen : List String) : List String → List String
  | [] => []
  | x :: xs =>
    if x ∈ seen then jsSetDedupAux seen xs
    else x :: jsSetDedupAux (x :: seen) xs

/-- JS `Array.from(new Set(xs))`: keep the first occurrence of each element. -/
def jsSetDedup (l : List String) : List String := jsSetDedupAux [] l

/-- The sort relation for the `.sort()` on modifier-id strings. -/
def strLeP (a b : String) : Prop := strLtB a b = true ∨ a = b

instance : DecidableRel strLeP := fun a b => by
  unfold strLeP; infer_instance

/-- The modifier ids of one raw line (checkout.ts lines 57–69): keep the
string entries whose trim is non-empty, trim them, set-deduplicate and sort. -/
def modIdsOf (line : IncomingCartLine) : List String :=
  match line.modifier_catalog_object_ids with
  | some ids =>
    List.insertionSort strLeP
      (jsSetDedup ((ids.filter (fun mid =>
          match mid with
          | some s => decide ((jsTrim s).length > 0)
          | none => false)).map (fun mid => jsTrim (mid.getD ""))))
  | none => []

/-- The grouping key (checkout.ts line 72): `id + "::" + modifierIds.join(",")`. -/
def lineKeyStr (catalogObjectId : String) (modifierIds : List String) : String :=
  catalogObjectId ++ "::" ++ String.intercalate "," modifierIds

/-- Processing of one raw line before grouping (checkout.ts lines 50–72). -/
def normLineOf (line : IncomingCartLine) : Option (String × NormalizedLine) :=
  let catalogObjectId := jsTrim (line.catalog_object_id.getD "")
  if catalogObjectId = "" then none
  else
    let modifierIds := modIdsOf line
    let quantity := normalizeQuantity line.quantity
    some (lineKeyStr catalogObjectId modifierIds,
      ⟨catalogObjectId, modifierIds, quantity⟩)

/-- One iteration of the grouping loop (checkout.ts lines 73–83). -/
def normStep (grouped : List (String × NormalizedLine)) (line : IncomingCartLine) :
    List (String × NormalizedLine) :=
  upsertStep (fun old nl => { old with quantity := old.quantity + nl.quantity })
    normLineOf grouped line

/-- `normalizeCartLines` (checkout.ts lines 47–87). -/
def normalizeCartLines (rawCart : List IncomingCartLine) : List NormalizedLine :=
  (rawCart.foldl normStep []).map Prod.snd

end Checkout

/-! ## Environment resolution and the gateway client -/

/-- JS truthiness of a string-or-undefined value: `undefined` and `""` are falsy. -/
def truthy : Option String → Bool
  | none => false
  | some s => decide (s ≠ "")

/-- JS `a || b` where `a` is a string-or-undefined value and `b` a string. -/
def orFalsy (a : Option String) (b : String) : String :=
  match a with
  | some s => if s = "" then b else s
  | none => b

/-- `x || null` on a string-or-undefined value. -/
def falsyToNone (a : Option String) : Option String :=
  if truthy a then a else none

/-- `getEnv` (orders.ts lines 116–118): the runtime-scoped env value takes
precedence via `??`, so even an empty string in the runtime env is kept. -/
def getEnv (runtimeVal processVal : Option String) : Option String :=
  match runtimeVal with
  | some v => some v
  | none => processVal

/-- The resolved configuration values the handlers read (each the result of
`getEnv` on the corresponding variable). -/
structure EnvConfig where
  squareEnvironment : Option String
  squareAppId : Option String
  publicSquareAppId : Option String
  squareAccessToken : Option String
  squareLocationId : Option String
deriving Repr

/-- JS `s.toLowerCase()` modelled characterwise. -/
def jsToLower (s : String) : String := String.mk (s.data.map Char.toLower)

/-- `appId.startsWith("sandbox-")` modelled on character lists. -/
def listStartsWithL : List Char → List Char → Bool
  | _, [] => true
  | [], _ :: _ => false
  | a :: as, b :: bs => decide (a = b) && listStartsWithL as bs

/-- `a.includes(b)` modelled on character lists. -/
def listContainsSub : List Char → List Char → Bool
  | [], p => p.isEmpty
  | a :: as, p => listStartsWithL (a :: as) p || listContainsSub as p

/-- JS `s.startsWith(pat)`. -/
def strStartsWithPat (s pat : String) : Bool := listStartsWithL s.data pat.data

/-- JS `s.includes(pat)`. -/
def strIncludes (s pat : String) : Bool := listContainsSub s.data pat.data

/-- `resolveSquareEnvironment` (orders.ts lines 120–137, unnamed variant
lines 92–109): the app-id pattern signals override the explicit flag; the
sandbox pattern is checked before the production pattern; with no signal the
flag `"production"` selects production, and sandbox is the default. -/
def resolveSquareEnvironment (cfg : EnvConfig) : String :=
  let explicitEnvironment := jsToLower (orFalsy cfg.squareEnvironment "")
  let appId := orFalsy cfg.squareAppId (orFalsy cfg.publicSquareAppId "")
  let hasSandboxAppId :=
    strStartsWithPat appId "sandbox-" || strIncludes appId "sq0idb-"
  let hasProductionAppId := strIncludes appId "sq0idp-"
  if hasSandboxAppId then "sandbox"
  else if hasProductionAppId then "production"
  else if explicitEnvironment = "production" then "production"
  else "sandbox"

/-- `getSquareApiBase` (orders.ts lines 139–143). -/
def getSquareApiBase (cfg : EnvConfig) : String :=
  if resolveSquareEnvironment cfg = "production" then "https://connect.squareup.com"
  else "https://connect.squareupsandbox.com"

/-- The `total_money` object of an order response, as far as the code reads
it: the raw `amount` and the `currency` when it is a string. -/
structure TotalMoney where
  amount : JsVal
  currency : Option String
deriving DecidableEq, Repr

/-- The `order` object of a create-order response, as far as the code reads it. -/
structure OrderObj where
  id : Option String
  state : Option String
  total_money : Option TotalMoney
deriving DecidableEq, Repr

/-- One entry of a list-locations response. -/
structure LocationObj where
  id : Option String
  status : Option String
deriving DecidableEq, Repr

/-- The `payment` object of a create-payment response. -/
structure PaymentObj where
  id : Option String
  status : Option String
  receipt_url : Option String
deriving DecidableEq, Repr

/-- A parsed successful Square response, restricted to the fields the code
reads. -/
structure Payload where
  order : Option OrderObj
  locations : Option (List LocationObj)
  payment : Option PaymentObj
deriving DecidableEq, Repr

/-- One modifier of an outbound line item. -/
structure LineItemMod where
  catalog_object_id : String
  quantity : String
deriving DecidableEq, Repr

/-- An outbound order line item; `modifiers` is omitted when empty. -/
structure LineItem where
  catalog_object_id : String
  quantity : String
  modifiers : Option (List LineItemMod)
deriving DecidableEq, Repr

/-- An outbound Square call, identified by path and body (idempotency keys are
freshly random per call in the source and are not part of the deterministic
model). -/
inductive GatewayCall where
  | listLocations
  | createOrder (location_id : String) (line_items : List LineItem)
  | createPayment (source_id : String) (location_id : String) (amount : ℚ)
      (currency : String) (order_id : String) (autocomplete : Bool)
      (buyer_email_address : Option String)
deriving DecidableEq, Repr

/-- The observable outcome of the remote API on one call: a parsed payload on
a 2xx status, or the error message `squareRequest` derives from a non-ok
response envelope. -/
inductive SquareResult where
  | ok (payload : Payload)
  | httpErr (msg : String)

instance {ε α : Type} [DecidableEq ε] [DecidableEq α] : DecidableEq (Except ε α) :=
  fun x y =>
    match x, y with
    | .ok a, .ok b =>
      if h : a = b then isTrue (by rw [h])
      else isFalse (fun he => h (Except.ok.inj he))
    | .error a, .error b =>
      if h : a = b then isTrue (by rw [h])
      else isFalse (fun he => h (Except.error.inj he))
    | .ok _, .error _ => isFalse (fun he => Except.noConfusion he)
    | .error _, .ok _ => isFalse (fun he => Except.noConfusion he)

/-- `squareRequest` (orders.ts lines 145–179, checkout.ts lines 89–119):
fail fast with no network call when the access token is missing or empty;
otherwise issue the call and turn a non-ok response into a thrown error.
Returns the outcome together with the list of calls issued. -/
def squareRequest (token : Option String) (gw : GatewayCall → SquareResult)
    (call : GatewayCall) : Except String Payload × List GatewayCall :=
  if truthy token then
    match gw call with
    | .ok p => (.ok p, [call])
    | .httpErr m => (.error m, [call])
  else (.error "Missing SQUARE_ACCESS_TOKEN.", [])

/-- `locations.find(l => l.status === "ACTIVE")` (orders.ts lines 186–188). -/
def firstActive (locs : List LocationObj) : Option LocationObj :=
  locs.find? (fun loc => decide (loc.status = some "ACTIVE"))

/-- `resolveLocationId` (orders.ts lines 181–190, checkout.ts lines 121–130,
unnamed variant lines 153–162): return the configured override when truthy
(no network call); otherwise list locations and return the id of the first
ACTIVE one, or null. -/
def resolveLocationId (cfg : EnvConfig) (gw : GatewayCall → SquareResult) :
    Except String (Option String) × List GatewayCall :=
  if truthy cfg.squareLocationId then (.ok cfg.squareLocationId, [])
  else
    match squareRequest cfg.squareAccessToken gw .listLocations with
    | (.ok p, calls) =>
      (.ok (match firstActive (p.locations.getD []) with
        | some loc => falsyToNone loc.id
        | none => none), calls)
    | (.error m, calls) => (.error m, calls)

/-! ## The request handlers -/

/-- A JSON response: status code plus the shape of the rendered body. -/
inductive RespBody where
  | err (error : String)
  | orderCreated (orderId : Option String) (state : Option String)
      (locationId : Option String) (totalMoney : Option TotalMoney)
      (order : Option OrderObj)
  | checkoutDone (orderId : String) (paymentId : Option String)
      (paymentStatus : Option String) (receiptUrl : Option String)
      (amount : ℚ) (currency : String)
deriving DecidableEq, Repr

/-- An HTTP response as `createJsonResponse` renders it. -/
structure HttpResponse where
  status : Nat
  body : RespBody
deriving DecidableEq, Repr

/-- The parsed request body of the create-order endpoint; `none` on `cart`
models an absent or non-array field, an outer `none` a missing or non-JSON
body (`request.json().catch(() => null)`). -/
structure OrdersBody where
  cart : Option (List IncomingCartLine)

/-- Build the outbound line items of the orders variant
(orders.ts lines 215–226): stringified quantities, `modifiers` only when
non-empty. -/
def mkOrderLineItems (lines : List NormalizedLine) : List LineItem :=
  lines.map (fun line =>
    ⟨line.catalogObjectId, toString line.quantity,
      if line.modifierEntries.isEmpty then none
      else some (line.modifierEntries.map (fun e => ⟨e.1, toString e.2⟩))⟩)

/-- The `POST` handler of the create-order endpoint (orders.ts lines 192–259),
as a function of the configuration, the parsed request body and the remote
API's behavior `gw`. Returns the rendered response and the list of outbound
calls issued. Thrown errors are modelled by the `Except` plumbing of
`squareRequest` and surface as the catch-all 500 response. -/
def ordersPOST (cfg : EnvConfig) (body : Option OrdersBody)
    (gw : GatewayCall → SquareResult) : HttpResponse × List GatewayCall :=
  let rawCart := (body.bind (fun b => b.cart)).getD []
  let normalizedLines := normalizeCartLines rawCart
  if normalizedLines.isEmpty then
    (⟨400, .err "Cart is empty or invalid."⟩, [])
  else
    match resolveLocationId cfg gw with
    | (.error m, calls) => (⟨500, .err m⟩, calls)
    | (.ok locOpt, calls) =>
      if truthy locOpt then
        let locationId := locOpt.getD ""
        let lineItems := mkOrderLineItems normalizedLines
        match squareRequest cfg.squareAccessToken gw (.createOrder locationId lineItems) with
        | (.error m, calls2) => (⟨500, .err m⟩, calls ++ calls2)
        | (.ok p, calls2) =>
          (⟨200, .orderCreated
              (falsyToNone (p.order.bind (fun o => o.id)))
              (falsyToNone (p.order.bind (fun o => o.state)))
              (some locationId)
              (p.order.bind (fun o => o.total_money))
              p.order⟩,
            calls ++ calls2)
      else (⟨500, .err "No active Square location is configured."⟩, calls)

/-- The parsed request body of the checkout endpoints; `none` fields model
absent or wrongly-typed data. -/
structure CheckoutBody where
  cart : Option (List Checkout.IncomingCartLine)
  sourceId : Option String
  buyerEmailAddress : Option String

/-- Build the outbound line items of the checkout variant
(checkout.ts lines 168–179): every modifier is sent with quantity "1". -/
def mkCheckoutLineItems (lines : List Checkout.NormalizedLine) : List LineItem :=
  lines.map (fun line =>
    ⟨line.catalogObjectId, toString line.quantity,
      if line.modifierIds.isEmpty then none
      else some (line.modifierIds.map (fun mid => ⟨mid, "1"⟩))⟩)

/-- The `POST` handler of the checkout endpoints (checkout.ts lines 132–243,
unnamed variant lines 164–283), as a function of the configuration, the
parsed request body and the remote API's behavior. The
"Unable to determine order total for payment." error is thrown inside the
`try` block and rendered by the catch-all as a 500 response. -/
def checkoutPOST (cfg : EnvConfig) (body : Option CheckoutBody)
    (gw : GatewayCall → SquareResult) : HttpResponse × List GatewayCall :=
  let sourceId := jsTrim ((body.bind (fun b => b.sourceId)).getD "")
  if sourceId = "" then (⟨400, .err "Missing payment source token."⟩, [])
  else
    let rawCart := (body.bind (fun b => b.cart)).getD []
    let normalizedLines := Checkout.normalizeCartLines rawCart
    if normalizedLines.isEmpty then (⟨400, .err "Cart is empty or invalid."⟩, [])
    else
      let buyerEmailAddress := match body.bind (fun b => b.buyerEmailAddress) with
        | some s => if jsTrim s = "" then none else some (jsTrim s)
        | none => none
      match resolveLocationId cfg gw with
      | (.error m, calls) => (⟨500, .err m⟩, calls)
      | (.ok locOpt, calls) =>
        if truthy locOpt then
          let locationId := locOpt.getD ""
          let lineItems := mkCheckoutLineItems normalizedLines
          match squareRequest cfg.squareAccessToken gw (.createOrder locationId lineItems) with
          | (.error m, calls2) => (⟨500, .err m⟩, calls ++ calls2)
          | (.ok p, calls2) =>
            let orderId := p.order.bind (fun o => o.id)
            let totalMoney := p.order.bind (fun o => o.total_money)
            let amount := jsToNumber (match totalMoney with
              | some tm => tm.amount
              | none => .undef)
            let currency := match totalMoney.bind (fun tm => tm.currency) with
              | some c => c
              | none => "USD"
            match amount with
            | .fin a =>
              if truthy orderId && decide (0 < a) then
                match squareRequest cfg.squareAccessToken gw
                    (.createPayment sourceId locationId a currency (orderId.getD "")
                      true buyerEmailAddress) with
                | (.error m, calls3) => (⟨500, .err m⟩, calls ++ calls2 ++ calls3)
                | (.ok p2, calls3) =>
                  (⟨200, .checkoutDone (orderId.getD "")
                      (falsyToNone (p2.payment.bind (fun pay => pay.id)))
                      (falsyToNone (p2.payment.bind (fun pay => pay.status)))
                      (falsyToNone (p2.payment.bind (fun pay => pay.receipt_url)))
                      a currency⟩,
                    calls ++ calls2 ++ calls3)
              else
                (⟨500, .err "Unable to determine order total for payment."⟩, calls ++ calls2)
            | _ =>
              (⟨500, .err "Unable to determine order total for payment."⟩, calls ++ calls2)
        else (⟨500, .err "No active Square location is configured."⟩, calls)

/-! ## Derived vocabulary used by the theorems -/

/-- Lookup in an association list (the value JS `Map.get` would return). -/
def alistFind {β : Type} (m : List (String × β)) (k : String) : Option β :=
  (m.find? (fun p => decide (p.1 = k))).map Prod.snd

/-- The keys of an association list, in storage order. -/
def keysOfA {β : Type} (m : List (String × β)) : List String := m.map Prod.fst

/-- The grouping key a normalized line of the orders variant corresponds to
(recomputed from its fields; grouping never changes them). -/
def outKey (n : NormalizedLine) : String :=
  lineKeyStr n.catalogObjectId n.modifierEntries

/-- The trimmed catalog id of a raw line. -/
def jsTrimId (l : IncomingCartLine) : String := jsTrim (l.catalog_object_id.getD "")

/-- The grouping key of a raw line, `none` when the line is discarded. -/
def keyOf (l : IncomingCartLine) : Option String := (normLineOf l).map Prod.fst

/-- The raw lines of a cart that carry the grouping key `k`. -/
def linesWithKey (cart : List IncomingCartLine) (k : String) : List IncomingCartLine :=
  cart.filter (fun l => decide (keyOf l = some k))

/-- The total coerced quantity of the raw lines of `cart` keyed `k`. -/
def qsum (cart : List IncomingCartLine) (k : String) : Int :=
  ((linesWithKey cart k).map (fun l => normalizeQuantity l.quantity)).sum

/-- The normalized line a kept raw line contributes on first occurrence. -/
def normBase (l : IncomingCartLine) : NormalizedLine :=
  ⟨jsTrimId l, normalizeModifiers l, normalizeQuantity l.quantity⟩

/-- Read a normalized line of the orders variant back as a raw wire cart line
(the structured modifier shape, carrying the entry quantities). -/
def toRaw (n : NormalizedLine) : IncomingCartLine :=
  ⟨some n.catalogObjectId,
    some (n.modifierEntries.map (fun e => ModEntry.obj ⟨some e.1, .num (.fin e.2)⟩)),
    none,
    .num (.fin n.quantity)⟩

/-- Grouping of an explicit list of (key, quantity) contributions; both
modifier loops reduce to it. -/
def groupPairs (ps : List (String × Int)) : List (String × Int) :=
  ps.foldl (fun m p => mapAdd m p.1 p.2) []

/-! # Theorems

## Order properties of the sort comparators -/

theorem listCharLt_iff_lex :
    ∀ a b : List Char, listCharLt a b = true ↔ List.Lex (· < ·) a b
  | [], [] => by
    simp only [listCharLt, Bool.false_eq_true, false_iff]
    exact fun h => by cases h
  | [], _ :: _ => by
    simp only [listCharLt, true_iff]
    exact List.Lex.nil
  | _ :: _, [] => by
    simp only [listCharLt, Bool.false_eq_true, false_iff]
    exact fun h => by cases h
  | a :: as, b :: bs => by
    simp only [listCharLt, Bool.or_eq_true, Bool.and_eq_true, decide_eq_true_eq,
      listCharLt_iff_lex as bs]
    constructor
    · rintro (h | ⟨rfl, h⟩)
      · exact List.Lex.rel h
      · exact List.Lex.cons h
    · intro h
      cases h with
      | cons h => exact Or.inr ⟨rfl, h⟩
      | rel h => exact Or.inl h

theorem strLtB_trans {a b c : String} (h₁ : strLtB a b = true) (h₂ : strLtB b c = true) :
    strLtB a c = true := by
  rw [strLtB, listCharLt_iff_lex] at h₁ h₂ ⊢
  exact trans_of (List.Lex (· < ·)) h₁ h₂

theorem strLtB_irrefl (a : String) : strLtB a a = false := by
  cases h : strLtB a a
  · rfl
  · rw [strLtB, listCharLt_iff_lex] at h
    exact absurd h (irrefl_of (List.Lex (· < ·)) a.data)

theorem strLtB_ne {a b : String} (h : strLtB a b = true) : a ≠ b := by
  rintro rfl
  rw [strLtB_irrefl] at h
  exact Bool.false_ne_true h

theorem strLtB_asymm {a b : String} (h : strLtB a b = true) : strLtB b a = false := by
  cases h' : strLtB b a
  · rfl
  · exact absurd rfl (strLtB_ne (strLtB_trans h h'))

theorem strLtB_total {a b : String} (h : a ≠ b) :
    strLtB a b = true ∨ strLtB b a = true := by
  have hd : a.data ≠ b.data := fun he => h (String.ext he)
  haveI : IsTrichotomous (List Char) (List.Lex (· < ·)) := List.Lex.isTrichotomous _
  have h3 : List.Lex (· < ·) a.data b.data ∨ a.data = b.data ∨ List.Lex (· < ·) b.data a.data :=
    trichotomous_of (List.Lex (· < ·)) a.data b.data
  rcases h3 with h' | h' | h'
  · exact Or.inl ((listCharLt_iff_lex _ _).mpr h')
  · exact absurd h' hd
  · exact Or.inr ((listCharLt_iff_lex _ _).mpr h')

instance : IsTrans (String × Int) entryLeP where
  trans a b c h₁ h₂ := by
    rcases h₁ with h₁ | ⟨e₁, q₁⟩ <;> rcases h₂ with h₂ | ⟨e₂, q₂⟩
    · exact Or.inl (strLtB_trans h₁ h₂)
    · exact Or.inl (e₂ ▸ h₁)
    · exact Or.inl (e₁ ▸ h₂)
    · exact Or.inr ⟨e₁.trans e₂, le_trans q₁ q₂⟩

instance : IsTotal (String × Int) entryLeP where
  total a b := by
    by_cases he : a.1 = b.1
    · rcases le_total a.2 b.2 with h | h
      · exact Or.inl (Or.inr ⟨he, h⟩)
      · exact Or.inr (Or.inr ⟨he.symm, h⟩)
    · rcases strLtB_total he with h | h
      · exact Or.inl (Or.inl h)
      · exact Or.inr (Or.inl h)

instance : IsAntisymm (String × Int) entryLeP where
  antisymm a b h₁ h₂ := by
    rcases h₁ with h₁ | ⟨e₁, q₁⟩
    · rcases h₂ with h₂ | ⟨e₂, q₂⟩
      · exact Bool.noConfusion ((strLtB_asymm h₁).symm.trans h₂)
      · rw [e₂] at h₁
        exact Bool.noConfusion ((strLtB_irrefl _).symm.trans h₁)
    · rcases h₂ with h₂ | ⟨e₂, q₂⟩
      · rw [e₁] at h₂
        exact Bool.noConfusion ((strLtB_irrefl _).symm.trans h₂)
      · exact Prod.ext e₁ (le_antisymm q₁ q₂)

instance : IsTrans String Checkout.strLeP where
  trans a b c h₁ h₂ := by
    rcases h₁ with h₁ | rfl
    · rcases h₂ with h₂ | rfl
      · exact Or.inl (strLtB_trans h₁ h₂)
      · exact Or.inl h₁
    · exact h₂

instance : IsTotal String Checkout.strLeP where
  total a b := by
    by_cases he : a = b
    · exact Or.inl (Or.inr he)
    · rcases strLtB_total he with h | h
      · exact Or.inl (Or.inl h)
      · exact Or.inr (Or.inl h)

instance : IsAntisymm String Checkout.strLeP where
  antisymm a b h₁ h₂ := by
    rcases h₁ with h₁ | rfl
    · rcases h₂ with h₂ | rfl
      · exact Bool.noConfusion ((strLtB_asymm h₁).symm.trans h₂)
      · rfl
    · rfl


/-! ## Association-list lemmas for the grouping loops -/

theorem alistFind_eq_none_iff {β : Type} (m : List (String × β)) (k : String) :
    alistFind m k = none ↔ k ∉ keysOfA m := by
  simp only [alistFind, Option.map_eq_none', List.find?_eq_none, decide_eq_true_eq,
    keysOfA, List.mem_map]
  constructor
  · rintro h ⟨p, hp, rfl⟩
    exact h p hp rfl
  · rintro h p hp rfl
    exact h ⟨p, hp, rfl⟩

theorem keys_of_find?_some {β : Type} {m : List (String × β)} {k : String}
    {p : String × β} (h : m.find? (fun q => decide (q.1 = k)) = some p) : p.1 = k := by
  have h2 := List.find?_some h
  exact of_decide_eq_true h2

theorem alistFind_upsert_self {β : Type} (bump : β → β → β) (m : List (String × β))
    (k : String) (v : β) :
    alistFind (upsert bump m k v) k =
      match alistFind m k with
      | some w => some (bump w v)
      | none => some v := by
  unfold upsert
  by_cases hf : (m.find? (fun p => decide (p.1 = k))).isSome = true
  · rw [if_pos hf]
    rcases Option.isSome_iff_exists.mp hf with ⟨p, hp⟩
    have hpk : p.1 = k := keys_of_find?_some hp
    have hcomp :
        ((fun q : String × β => decide (q.1 = k)) ∘
          (fun q : String × β => if q.1 = k then (q.1, bump q.2 v) else q)) =
        (fun q : String × β => decide (q.1 = k)) := by
      funext q
      by_cases hq : q.1 = k <;> simp [hq]
    rw [alistFind, List.find?_map, hcomp, hp, alistFind, hp]
    simp [hpk]
  · rw [if_neg hf]
    have hn : m.find? (fun p => decide (p.1 = k)) = none := by
      cases h : m.find? (fun p => decide (p.1 = k))
      · rfl
      · exact absurd (by rw [h]; rfl) hf
    rw [alistFind, List.find?_append, hn, alistFind, hn]
    simp

theorem alistFind_upsert_ne {β : Type} (bump : β → β → β) (m : List (String × β))
    (k : String) (v : β) (k' : String) (h : k' ≠ k) :
    alistFind (upsert bump m k v) k' = alistFind m k' := by
  unfold upsert
  by_cases hf : (m.find? (fun p => decide (p.1 = k))).isSome = true
  · rw [if_pos hf]
    have hcomp :
        ((fun q : String × β => decide (q.1 = k')) ∘
          (fun q : String × β => if q.1 = k then (q.1, bump q.2 v) else q)) =
        (fun q : String × β => decide (q.1 = k')) := by
      funext q
      by_cases hq : q.1 = k
      · simp only [hq, if_pos]
        simp [hq, Ne.symm h]
      · simp [hq]
    rw [alistFind, List.find?_map, hcomp, alistFind]
    cases hq : m.find? (fun p => decide (p.1 = k')) with
    | none => simp
    | some q =>
      have hqk : q.1 = k' := keys_of_find?_some hq
      simp only [Option.map_some']
      rw [if_neg (by rw [hqk]; exact h)]
  · rw [if_neg hf]
    rw [alistFind, List.find?_append, alistFind]
    have : ([(k, v)].find? (fun p => decide (p.1 = k'))) = none := by
      simp [Ne.symm h]
    rw [this]
    simp

theorem keysOfA_upsert_of_found {β : Type} (bump : β → β → β) (m : List (String × β))
    (k : String) (v : β) (h : (m.find? (fun p => decide (p.1 = k))).isSome = true) :
    keysOfA (upsert bump m k v) = keysOfA m := by
  unfold upsert
  rw [if_pos h]
  unfold keysOfA
  rw [List.map_map]
  congr 1
  funext q
  by_cases hq : q.1 = k <;> simp [hq]

theorem upsert_of_not_found {β : Type} (bump : β → β → β) (m : List (String × β))
    (k : String) (v : β) (h : (m.find? (fun p => decide (p.1 = k))).isSome = false) :
    upsert bump m k v = m ++ [(k, v)] := by
  unfold upsert
  rw [if_neg (by rw [h]; exact Bool.false_ne_true)]

theorem mem_keysOfA_upsert {β : Type} (bump : β → β → β) (m : List (String × β))
    (k : String) (v : β) (k' : String) :
    k' ∈ keysOfA (upsert bump m k v) ↔ k' ∈ keysOfA m ∨ k' = k := by
  by_cases hf : (m.find? (fun p => decide (p.1 = k))).isSome = true
  · rw [keysOfA_upsert_of_found bump m k v hf]
    have hk : k ∈ keysOfA m := by
      rcases Option.isSome_iff_exists.mp hf with ⟨p, hp⟩
      exact keys_of_find?_some hp ▸
        List.mem_map_of_mem Prod.fst (List.mem_of_find?_eq_some hp)
    constructor
    · exact Or.inl
    · rintro (h | rfl)
      · exact h
      · exact hk
  · rw [upsert_of_not_found bump m k v (Bool.eq_false_iff.mpr hf)]
    simp [keysOfA]

theorem nodup_keysOfA_upsert {β : Type} (bump : β → β → β) (m : List (String × β))
    (k : String) (v : β) (h : (keysOfA m).Nodup) :
    (keysOfA (upsert bump m k v)).Nodup := by
  by_cases hf : (m.find? (fun p => decide (p.1 = k))).isSome = true
  · rw [keysOfA_upsert_of_found bump m k v hf]
    exact h
  · rw [upsert_of_not_found bump m k v (Bool.eq_false_iff.mpr hf)]
    have hk : k ∉ keysOfA m := by
      rw [← alistFind_eq_none_iff]
      cases hx : m.find? (fun p => decide (p.1 = k))
      · simp [alistFind, hx]
      · exact absurd (by rw [hx]; rfl) hf
    have hkeys : keysOfA (m ++ [(k, v)]) = keysOfA m ++ [k] := by simp [keysOfA]
    rw [hkeys]
    refine List.Nodup.append h (List.nodup_singleton k) ?_
    intro a ha hb
    rw [List.mem_singleton.mp hb] at ha
    exact hk ha

theorem upsert_forall {β : Type} {P : String × β → Prop} (bump : β → β → β)
    (m : List (String × β)) (k : String) (v : β)
    (hm : ∀ p ∈ m, P p) (hv : P (k, v))
    (hbump : ∀ w, P (k, w) → P (k, bump w v)) :
    ∀ p ∈ upsert bump m k v, P p := by
  intro p hp
  by_cases hf : (m.find? (fun q => decide (q.1 = k))).isSome = true
  · rw [upsert, if_pos hf] at hp
    rcases List.mem_map.mp hp with ⟨q, hq, rfl⟩
    by_cases hqk : q.1 = k
    · rw [if_pos hqk]
      rw [hqk]
      exact hbump q.2 (by rw [← hqk]; exact hm q hq)
    · rw [if_neg hqk]
      exact hm q hq
  · rw [upsert_of_not_found bump m k v (Bool.eq_false_iff.mpr hf)] at hp
    rcases List.mem_append.mp hp with hp | hp
    · exact hm p hp
    · rw [List.mem_singleton.mp hp]
      exact hv

/-! ## Characterization of the grouping folds -/

theorem alistFind_foldl_upsertStep {α β : Type} (bump : β → β → β)
    (keyval : α → Option (String × β)) :
    ∀ (xs : List α) (m : List (String × β)) (k : String),
    alistFind (xs.foldl (upsertStep bump keyval) m) k =
      match alistFind m k,
          ((xs.filterMap keyval).filter (fun p => decide (p.1 = k))).map Prod.snd with
      | some w, vs => some (vs.foldl bump w)
      | none, [] => none
      | none, v :: vs => some (vs.foldl bump v)
  | [], m, k => by
    cases h : alistFind m k <;> simp [h]
  | x :: xs, m, k => by
    rw [List.foldl_cons]
    cases hkv : keyval x with
    | none =>
      rw [show upsertStep bump keyval m x = m by rw [upsertStep, hkv]]
      rw [alistFind_foldl_upsertStep bump keyval xs m k, List.filterMap_cons, hkv]
    | some p =>
      rcases p with ⟨k₀, v₀⟩
      rw [show upsertStep bump keyval m x = upsert bump m k₀ v₀ by rw [upsertStep, hkv]]
      rw [alistFind_foldl_upsertStep bump keyval xs (upsert bump m k₀ v₀) k,
        List.filterMap_cons, hkv]
      by_cases hk : k₀ = k
      · subst hk
        rw [alistFind_upsert_self]
        rw [List.filter_cons_of_pos (by simp)]
        cases h : alistFind m k₀ <;> simp [h]
      · rw [alistFind_upsert_ne bump m k₀ v₀ k (Ne.symm hk)]
        rw [List.filter_cons_of_neg (by simp [hk])]

theorem nodup_keysOfA_foldl_upsertStep {α β : Type} (bump : β → β → β)
    (keyval : α → Option (String × β)) :
    ∀ (xs : List α) (m : List (String × β)), (keysOfA m).Nodup →
      (keysOfA (xs.foldl (upsertStep bump keyval) m)).Nodup
  | [], m, h => h
  | x :: xs, m, h => by
    rw [List.foldl_cons]
    cases hkv : keyval x with
    | none =>
      rw [show upsertStep bump keyval m x = m by rw [upsertStep, hkv]]
      exact nodup_keysOfA_foldl_upsertStep bump keyval xs m h
    | some p =>
      rw [show upsertStep bump keyval m x = upsert bump m p.1 p.2 by rw [upsertStep, hkv]]
      exact nodup_keysOfA_foldl_upsertStep bump keyval xs _
        (nodup_keysOfA_upsert bump m p.1 p.2 h)

theorem foldl_upsertStep_forall {α β : Type} {P : String × β → Prop} (bump : β → β → β)
    (keyval : α → Option (String × β))
    (hbump : ∀ k w v, P (k, w) → P (k, v) → P (k, bump w v)) :
    ∀ (xs : List α) (m : List (String × β)), (∀ p ∈ m, P p) →
      (∀ x ∈ xs, ∀ p, keyval x = some p → P p) →
      ∀ p ∈ xs.foldl (upsertStep bump keyval) m, P p
  | [], m, hm, _ => hm
  | x :: xs, m, hm, hxs => by
    rw [List.foldl_cons]
    cases hkv : keyval x with
    | none =>
      rw [show upsertStep bump keyval m x = m by rw [upsertStep, hkv]]
      exact foldl_upsertStep_forall bump keyval hbump xs m hm
        (fun y hy => hxs y (List.mem_cons_of_mem x hy))
    | some p =>
      rw [show upsertStep bump keyval m x = upsert bump m p.1 p.2 by rw [upsertStep, hkv]]
      have hpv : P p := hxs x (List.mem_cons_self x xs) p hkv
      refine foldl_upsertStep_forall bump keyval hbump xs _ ?_
        (fun y hy => hxs y (List.mem_cons_of_mem x hy))
      exact upsert_forall bump m p.1 p.2 hm (by rcases p with ⟨k, v⟩; exact hpv)
        (fun w hw => hbump p.1 w p.2 hw (by rcases p with ⟨k, v⟩; exact hpv))

theorem foldl_upsertStep_append_of_fresh {α β : Type} (bump : β → β → β)
    (keyval : α → Option (String × β)) :
    ∀ (xs : List α) (m : List (String × β)),
      (keysOfA m ++ (xs.filterMap keyval).map Prod.fst).Nodup →
      xs.foldl (upsertStep bump keyval) m = m ++ xs.filterMap keyval
  | [], m, _ => by simp
  | x :: xs, m, h => by
    rw [List.foldl_cons, List.filterMap_cons]
    cases hkv : keyval x with
    | none =>
      rw [show upsertStep bump keyval m x = m by rw [upsertStep, hkv]]
      rw [List.filterMap_cons, hkv] at h
      exact foldl_upsertStep_append_of_fresh bump keyval xs m h
    | some p =>
      rw [show upsertStep bump keyval m x = upsert bump m p.1 p.2 by rw [upsertStep, hkv]]
      rw [List.filterMap_cons, hkv] at h
      have hfresh : p.1 ∉ keysOfA m := by
        intro hmem
        have : ¬ (keysOfA m ++ (p.1 :: (xs.filterMap keyval).map Prod.fst)).Nodup := by
          intro hn
          rcases List.nodup_append.mp hn with ⟨_, _, hdis⟩
          exact hdis hmem (List.mem_cons_self _ _)
        exact this (by simpa using h)
      have hnone : (m.find? (fun q => decide (q.1 = p.1))).isSome = false := by
        cases hx : m.find? (fun q => decide (q.1 = p.1)) with
        | none => rfl
        | some q =>
          exact absurd (keys_of_find?_some hx ▸
            List.mem_map_of_mem Prod.fst (List.mem_of_find?_eq_some hx)) hfresh
      rw [upsert_of_not_found bump m p.1 p.2 hnone]
      rw [foldl_upsertStep_append_of_fresh bump keyval xs (m ++ [(p.1, p.2)])
        (by
          have : keysOfA (m ++ [(p.1, p.2)]) = keysOfA m ++ [p.1] := by simp [keysOfA]
          rw [this, List.append_assoc]
          simpa using h)]
      simp

theorem filter_map_snd_of_keyed {β : Type} (g : β → String) :
    ∀ (m : List (String × β)), (keysOfA m).Nodup → (∀ p ∈ m, g p.2 = p.1) →
      ∀ k : String,
      (m.map Prod.snd).filter (fun n => decide (g n = k)) =
        match alistFind m k with
        | some n => [n]
        | none => []
  | [], _, _, k => rfl
  | (k₀, n₀) :: m, hnd, hkey, k => by
    have hk₀ : g n₀ = k₀ := hkey (k₀, n₀) (List.mem_cons_self _ _)
    have hnd' : (keysOfA m).Nodup := (List.nodup_cons.mp hnd).2
    have hk₀nm : k₀ ∉ keysOfA m := (List.nodup_cons.mp hnd).1
    by_cases hk : k₀ = k
    · subst hk
      rw [List.map_cons, List.filter_cons_of_pos (by simp [hk₀])]
      have htail : (m.map Prod.snd).filter (fun n => decide (g n = k₀)) = [] := by
        rw [List.filter_eq_nil_iff]
        intro n hn
        rcases List.mem_map.mp hn with ⟨p, hp, rfl⟩
        rw [hkey p (List.mem_cons_of_mem _ hp)]
        intro hcon
        exact hk₀nm (of_decide_eq_true hcon ▸ List.mem_map_of_mem Prod.fst hp)
      rw [htail]
      rw [show alistFind ((k₀, n₀) :: m) k₀ = some n₀ by
        simp [alistFind, List.find?_cons_of_pos]]
    · rw [List.map_cons, List.filter_cons_of_neg (by simp [hk₀, hk])]
      rw [show alistFind ((k₀, n₀) :: m) k = alistFind m k by
        simp [alistFind, List.find?_cons_of_neg, hk]]
      exact filter_map_snd_of_keyed g m hnd'
        (fun p hp => hkey p (List.mem_cons_of_mem _ hp)) k

/-! ## The orders-variant normalizer: grouping characterization -/

theorem normLineOf_eq_some {l : IncomingCartLine} {p : String × NormalizedLine}
    (h : normLineOf l = some p) :
    p = (lineKeyStr (jsTrimId l) (normalizeModifiers l), normBase l) ∧ jsTrimId l ≠ "" := by
  unfold normLineOf at h
  by_cases hid : jsTrim (l.catalog_object_id.getD "") = ""
  · rw [if_pos hid] at h
    cases h
  · rw [if_neg hid] at h
    exact ⟨(Option.some_inj.mp h).symm, hid⟩

theorem normLineOf_of_kept {l : IncomingCartLine} (h : jsTrimId l ≠ "") :
    normLineOf l = some (lineKeyStr (jsTrimId l) (normalizeModifiers l), normBase l) := by
  have h' : jsTrim (l.catalog_object_id.getD "") ≠ "" := h
  simp only [normLineOf]
  rw [if_neg h']
  rfl

theorem keyOf_of_normLineOf {l : IncomingCartLine} {p : String × NormalizedLine}
    (h : normLineOf l = some p) : keyOf l = some p.1 := by
  rw [keyOf, h, Option.map_some']

theorem keyOf_of_none {l : IncomingCartLine} (h : normLineOf l = none) : keyOf l = none := by
  rw [keyOf, h, Option.map_none']

theorem filterMap_filter_key :
    ∀ (cart : List IncomingCartLine) (k : String),
    ((cart.filterMap normLineOf).filter (fun p => decide (p.1 = k))).map Prod.snd =
      (linesWithKey cart k).map normBase
  | [], _ => rfl
  | l :: cart, k => by
    rw [List.filterMap_cons]
    cases h : normLineOf l with
    | none =>
      rw [linesWithKey, List.filter_cons_of_neg
        (by simp [keyOf_of_none h])]
      exact filterMap_filter_key cart k
    | some p =>
      rcases normLineOf_eq_some h with ⟨rfl, hid⟩
      by_cases hk : lineKeyStr (jsTrimId l) (normalizeModifiers l) = k
      · rw [List.filter_cons_of_pos (by simp [hk]), List.map_cons]
        rw [linesWithKey, List.filter_cons_of_pos
          (by simp [keyOf_of_normLineOf h, hk]), List.map_cons]
        exact congrArg _ (filterMap_filter_key cart k)
      · rw [List.filter_cons_of_neg (by simp [hk])]
        rw [linesWithKey, List.filter_cons_of_neg
          (by simp [keyOf_of_normLineOf h, hk])]
        exact filterMap_filter_key cart k

theorem foldl_bumpLine :
    ∀ (ns : List NormalizedLine) (n : NormalizedLine),
      ns.foldl (fun old nl => { old with quantity := old.quantity + nl.quantity }) n =
        ⟨n.catalogObjectId, n.modifierEntries,
          n.quantity + (ns.map (fun m => m.quantity)).sum⟩
  | [], n => by cases n; simp
  | m :: ns, n => by
    rw [List.foldl_cons, foldl_bumpLine ns]
    simp [add_assoc]

theorem outKey_bumpLine (w v : NormalizedLine) (k : String) (hw : outKey w = k) :
    outKey { w with quantity := w.quantity + v.quantity } = k := hw

theorem outKey_normBase {l : IncomingCartLine} :
    outKey (normBase l) = lineKeyStr (jsTrimId l) (normalizeModifiers l) := rfl

theorem nodup_keys_cartFold (cart : List IncomingCartLine) :
    (keysOfA (cart.foldl normStep [])).Nodup := by
  have : normStep = upsertStep
      (fun old nl => { old with quantity := old.quantity + nl.quantity }) normLineOf := by
    funext m l
    rfl
  rw [this]
  exact nodup_keysOfA_foldl_upsertStep _ _ cart [] List.nodup_nil

theorem keyed_cartFold (cart : List IncomingCartLine) :
    ∀ p ∈ cart.foldl normStep [], outKey p.2 = p.1 := by
  have he : normStep = upsertStep
      (fun old nl => { old with quantity := old.quantity + nl.quantity }) normLineOf := by
    funext m l
    rfl
  rw [he]
  refine foldl_upsertStep_forall _ _ ?_ cart [] (by simp) ?_
  · intro k w v hw _
    exact outKey_bumpLine w v k hw
  · intro l _ p hp
    rcases normLineOf_eq_some hp with ⟨rfl, _⟩
    rfl

theorem normalizeCartLines_filter_key (cart : List IncomingCartLine) (k : String) :
    (normalizeCartLines cart).filter (fun n => decide (outKey n = k)) =
      match (linesWithKey cart k).head? with
      | some l₀ => [{ normBase l₀ with quantity := qsum cart k }]
      | none => [] := by
  rw [normalizeCartLines]
  rw [filter_map_snd_of_keyed outKey (cart.foldl normStep [])
    (nodup_keys_cartFold cart) (keyed_cartFold cart) k]
  have he : normStep = upsertStep
      (fun old nl => { old with quantity := old.quantity + nl.quantity }) normLineOf := by
    funext m l
    rfl
  rw [he, alistFind_foldl_upsertStep]
  have hvs := filterMap_filter_key cart k
  rw [show alistFind ([] : List (String × NormalizedLine)) k = none from rfl]
  cases hl : (linesWithKey cart k) with
  | nil =>
    rw [hl] at hvs
    simp only [List.map_nil] at hvs
    rw [hvs]
    rfl
  | cons l₀ rest =>
    rw [hl] at hvs
    simp only [List.map_cons] at hvs
    rw [hvs]
    dsimp only
    rw [foldl_bumpLine]
    have hq : (normBase l₀).quantity + ((rest.map normBase).map (fun m => m.quantity)).sum =
        qsum cart k := by
      rw [qsum, hl, List.map_cons, List.sum_cons, List.map_map]
      rfl
    rw [hq]
    rw [List.head?_cons]

theorem keyOf_kept {l : IncomingCartLine} (h : jsTrimId l ≠ "") :
    keyOf l = some (lineKeyStr (jsTrimId l) (normalizeModifiers l)) := by
  rw [keyOf, normLineOf_of_kept h, Option.map_some']

theorem length_normalizeCartLines_two {l₁ l₂ : IncomingCartLine} {k₁ k₂ : String}
    {n₁ n₂ : NormalizedLine}
    (hp₁ : normLineOf l₁ = some (k₁, n₁)) (hp₂ : normLineOf l₂ = some (k₂, n₂)) :
    (normalizeCartLines [l₁, l₂]).length = if k₁ = k₂ then 1 else 2 := by
  have e1 : ([l₁, l₂].foldl normStep []) = normStep (normStep [] l₁) l₂ := rfl
  have s1 : normStep [] l₁ = [(k₁, n₁)] := by
    simp [normStep, upsertStep, hp₁, upsert]
  by_cases hk : k₁ = k₂
  · subst hk
    have s2 : normStep [(k₁, n₁)] l₂ =
        [(k₁, { n₁ with quantity := n₁.quantity + n₂.quantity })] := by
      simp [normStep, upsertStep, hp₂, upsert]
    rw [normalizeCartLines, e1, s1, s2, if_pos rfl]
    rfl
  · have s2 : normStep [(k₁, n₁)] l₂ = [(k₁, n₁), (k₂, n₂)] := by
      simp [normStep, upsertStep, hp₂, upsert, hk]
    rw [normalizeCartLines, e1, s1, s2, if_neg hk]
    rfl

/-- C1, counterexample: the grouping key is built by string concatenation
(`id + "::" + signature`), so two lines that disagree both on the trimmed
catalog id and on the modifier signature can still collide on the key and be
merged into one normalized line: `{id "A", modifiers ["B::C"]}` and
`{id "A::B", modifiers ["C"]}` both produce the key `"A::B::Cx1"`. This
refutes the claim that lines with distinct catalog IDs or distinct modifier
multisets are never merged. -/
theorem claim1_counterexample :
    (normalizeCartLines
        [⟨some "A", none, some [some "B::C"], .undef⟩,
          ⟨some "A::B", none, some [some "C"], .undef⟩]).length = 1 ∧
      jsTrimId ⟨some "A", none, some [some "B::C"], .undef⟩ ≠
        jsTrimId ⟨some "A::B", none, some [some "C"], .undef⟩ ∧
      normalizeModifiers ⟨some "A", none, some [some "B::C"], .undef⟩ ≠
        normalizeModifiers ⟨some "A::B", none, some [some "C"], .undef⟩ := by
  refine ⟨?_, by decide, by decide⟩
  decide

/-- C1 (amended): two kept input lines are grouped into the same normalized
line iff their computed key strings (`trimmed id + "::" + sorted modifier
signature`) are equal; agreement on the pair (trimmed catalog id, sorted
modifier signature) always implies key equality, hence grouping, but the
converse fails when ids contain the `"::"` delimiter (see the
counterexample), so key equality — not pair equality — is the exact grouping
criterion. -/
theorem claim1_identity_key (l₁ l₂ : IncomingCartLine) (k₁ k₂ : String)
    (h₁ : keyOf l₁ = some k₁) (h₂ : keyOf l₂ = some k₂) :
    ((normalizeCartLines [l₁, l₂]).length = 1 ↔ k₁ = k₂) ∧
      (jsTrimId l₁ = jsTrimId l₂ ∧ normalizeModifiers l₁ = normalizeModifiers l₂ →
        k₁ = k₂) := by
  rcases Option.map_eq_some'.mp h₁ with ⟨⟨k₁', n₁⟩, hp₁, hk₁⟩
  rcases Option.map_eq_some'.mp h₂ with ⟨⟨k₂', n₂⟩, hp₂, hk₂⟩
  cases hk₁
  cases hk₂
  constructor
  · rw [length_normalizeCartLines_two hp₁ hp₂]
    by_cases hk : k₁' = k₂'
    · simp [hk]
    · simp [hk]
  · rintro ⟨hid, hmods⟩
    have e₁ := (normLineOf_eq_some hp₁).1
    have e₂ := (normLineOf_eq_some hp₂).1
    have ek₁ : k₁' = lineKeyStr (jsTrimId l₁) (normalizeModifiers l₁) :=
      congrArg Prod.fst e₁
    have ek₂ : k₂' = lineKeyStr (jsTrimId l₂) (normalizeModifiers l₂) :=
      congrArg Prod.fst e₂
    rw [ek₁, ek₂, hid, hmods]

/-- Witness for C1 (amended): two concrete kept lines with equal keys (same
trimmed id `"A"`, empty modifier list) are merged into a single line. -/
theorem claim1_identity_key_witness :
    keyOf ⟨some "A", none, none, .num (.fin 1)⟩ = some "A::" ∧
      keyOf ⟨some " A", none, none, .num (.fin 2)⟩ = some "A::" ∧
      (normalizeCartLines
        [⟨some "A", none, none, .num (.fin 1)⟩,
          ⟨some " A", none, none, .num (.fin 2)⟩]).length = 1 := by
  refine ⟨by decide, by decide, ?_⟩
  exact (claim1_identity_key ⟨some "A", none, none, .num (.fin 1)⟩
    ⟨some " A", none, none, .num (.fin 2)⟩ "A::" "A::"
    (by decide) (by decide)).1.mpr rfl

/-- C4: for every cart and every grouping key `k` present in it, the
normalized output contains exactly one line with that key; its quantity is
the sum of the coerced quantities of all raw lines keyed `k` (summed, not
overwritten), and its catalog id and modifier entries are those established
by the first such raw line. -/
theorem claim4_duplicates_sum (cart : List IncomingCartLine) (k : String)
    (l₀ : IncomingCartLine) (h : (linesWithKey cart k).head? = some l₀) :
    (normalizeCartLines cart).filter (fun n => decide (outKey n = k)) =
      [{ normBase l₀ with quantity := qsum cart k }] := by
  rw [normalizeCartLines_filter_key, h]

/-- Witness for C4, the spec's own example: `{id:"A", qty:1, modifiers:["M"]}`
and `{id:"A", qty:2, modifiers:["M"]}` yield the single line
`{id:"A", qty:3, modifiers:[("M",1)]}`. -/
theorem claim4_duplicates_sum_witness :
    (linesWithKey
        [⟨some "A", none, some [some "M"], .num (.fin 1)⟩,
          ⟨some "A", none, some [some "M"], .num (.fin 2)⟩] "A::Mx1").head? =
      some ⟨some "A", none, some [some "M"], .num (.fin 1)⟩ ∧
      (normalizeCartLines
          [⟨some "A", none, some [some "M"], .num (.fin 1)⟩,
            ⟨some "A", none, some [some "M"], .num (.fin 2)⟩]).filter
        (fun n => decide (outKey n = "A::Mx1")) = [⟨"A", [("M", 1)], 3⟩] := by
  have h : (linesWithKey
      [⟨some "A", none, some [some "M"], .num (.fin 1)⟩,
        ⟨some "A", none, some [some "M"], .num (.fin 2)⟩] "A::Mx1").head? =
      some ⟨some "A", none, some [some "M"], .num (.fin 1)⟩ := by decide
  refine ⟨h, ?_⟩
  rw [claim4_duplicates_sum _ _ _ h]
  decide

/-! ## The modifier grouping maps -/

theorem foldl_addInt : ∀ (qs : List Int) (v : Int),
    qs.foldl (fun w q => w + q) v = v + qs.sum
  | [], v => by simp
  | q :: qs, v => by
    rw [List.foldl_cons, foldl_addInt qs, List.sum_cons, add_assoc]

theorem alistFind_groupFold {α : Type} (keyval : α → Option (String × Int))
    (xs : List α) (k : String) :
    alistFind (xs.foldl (upsertStep (fun w q => w + q) keyval) []) k =
      (if ((xs.filterMap keyval).filter (fun p => decide (p.1 = k))).isEmpty then none
        else some (((xs.filterMap keyval).filter
          (fun p => decide (p.1 = k))).map Prod.snd).sum) := by
  rw [alistFind_foldl_upsertStep]
  rw [show alistFind ([] : List (String × Int)) k = none from rfl]
  cases h : (xs.filterMap keyval).filter (fun p => decide (p.1 = k)) with
  | nil => rfl
  | cons p ps =>
    simp only [List.map_cons, List.isEmpty_cons, List.sum_cons]
    rw [foldl_addInt]
    rfl

theorem nodup_keys_groupFold {α : Type} (keyval : α → Option (String × Int))
    (xs : List α) :
    (keysOfA (xs.foldl (upsertStep (fun w q => w + q) keyval) [])).Nodup :=
  nodup_keysOfA_foldl_upsertStep _ keyval xs [] List.nodup_nil

theorem groupFold_of_all_dropped {α β : Type} (bump : β → β → β)
    (keyval : α → Option (String × β)) :
    ∀ (xs : List α) (m : List (String × β)), (∀ x ∈ xs, keyval x = none) →
      xs.foldl (upsertStep bump keyval) m = m
  | [], _, _ => rfl
  | x :: xs, m, h => by
    rw [List.foldl_cons,
      show upsertStep bump keyval m x = m by
        rw [upsertStep, h x (List.mem_cons_self x xs)]]
    exact groupFold_of_all_dropped bump keyval xs m
      (fun y hy => h y (List.mem_cons_of_mem x hy))

theorem groupFold_nil_iff {α : Type} (keyval : α → Option (String × Int))
    (xs : List α) :
    xs.foldl (upsertStep (fun w q => w + q) keyval) [] = [] ↔
      xs.filterMap keyval = [] := by
  constructor
  · intro h
    cases hf : xs.filterMap keyval with
    | nil => rfl
    | cons p ps =>
      have hfind := alistFind_groupFold keyval xs p.1
      rw [h] at hfind
      rw [hf] at hfind
      rw [List.filter_cons_of_pos (by simp)] at hfind
      simp only [List.isEmpty_cons, Bool.false_eq_true, if_false] at hfind
      exact Option.noConfusion hfind
  · intro h
    exact groupFold_of_all_dropped _ keyval xs []
      (fun x hx => by
        rcases hk : keyval x with _ | p
        · rfl
        · exact absurd (List.filterMap_eq_nil_iff.mp h x hx)
            (by rw [hk]; exact fun h => Option.noConfusion h))

theorem alistFind_cons {β : Type} (k₀ : String) (v₀ : β) (m : List (String × β))
    (k : String) :
    alistFind ((k₀, v₀) :: m) k = if k₀ = k then some v₀ else alistFind m k := by
  by_cases h : k₀ = k
  · subst h
    simp [alistFind]
  · simp [alistFind, List.find?_cons, h]

theorem mem_iff_alistFind {β : Type} :
    ∀ (m : List (String × β)), (keysOfA m).Nodup →
      ∀ p : String × β, p ∈ m ↔ alistFind m p.1 = some p.2
  | [], _, p => by
    simp [alistFind]
  | (k₀, v₀) :: m, hnd, p => by
    have hnd' : (keysOfA m).Nodup := (List.nodup_cons.mp hnd).2
    have hk₀ : k₀ ∉ keysOfA m := (List.nodup_cons.mp hnd).1
    rw [alistFind_cons]
    constructor
    · intro hp
      rcases List.mem_cons.mp hp with he | hp
      · rw [he]
        simp
      · have hne : k₀ ≠ p.1 := by
          intro he
          rw [he] at hk₀
          exact hk₀ (List.mem_map_of_mem Prod.fst hp)
        rw [if_neg hne]
        exact (mem_iff_alistFind m hnd' p).mp hp
    · intro hf
      by_cases he : k₀ = p.1
      · rw [if_pos he] at hf
        have hp : p = (k₀, v₀) := Prod.ext he.symm (Option.some_inj.mp hf).symm
        rw [hp]
        exact List.mem_cons_self _ _
      · rw [if_neg he] at hf
        exact List.mem_cons_of_mem _ ((mem_iff_alistFind m hnd' p).mpr hf)

theorem alist_perm_of_find_eq {β : Type} (m₁ m₂ : List (String × β))
    (h₁ : (keysOfA m₁).Nodup) (h₂ : (keysOfA m₂).Nodup)
    (h : ∀ k, alistFind m₁ k = alistFind m₂ k) : m₁.Perm m₂ := by
  refine (List.perm_ext_iff_of_nodup (List.Nodup.of_map Prod.fst h₁)
    (List.Nodup.of_map Prod.fst h₂)).mpr ?_
  intro p
  rw [mem_iff_alistFind m₁ h₁ p, mem_iff_alistFind m₂ h₂ p, h p.1]

theorem sortEntries_eq_of_perm {l₁ l₂ : List (String × Int)} (h : l₁.Perm l₂) :
    sortEntries l₁ = sortEntries l₂ := by
  refine List.eq_of_perm_of_sorted (r := entryLeP) ?_ ?_ ?_
  · exact (List.perm_insertionSort entryLeP l₁).trans
      (h.trans (List.perm_insertionSort entryLeP l₂).symm)
  · exact List.sorted_insertionSort entryLeP l₁
  · exact List.sorted_insertionSort entryLeP l₂

theorem flatGroup_perm {ms₁ ms₂ : List (Option String)} (h : ms₁.Perm ms₂) :
    (flatGroup ms₁).Perm (flatGroup ms₂) := by
  refine alist_perm_of_find_eq _ _ (nodup_keys_groupFold flatKept ms₁)
    (nodup_keys_groupFold flatKept ms₂) ?_
  intro k
  rw [flatGroup, flatGroup, alistFind_groupFold, alistFind_groupFold]
  have hp : ((ms₁.filterMap flatKept).filter (fun p => decide (p.1 = k))).Perm
      ((ms₂.filterMap flatKept).filter (fun p => decide (p.1 = k))) :=
    (h.filterMap flatKept).filter _
  have hsum : (((ms₁.filterMap flatKept).filter
        (fun p => decide (p.1 = k))).map Prod.snd).sum =
      (((ms₂.filterMap flatKept).filter (fun p => decide (p.1 = k))).map Prod.snd).sum :=
    (hp.map Prod.snd).sum_eq
  by_cases hc : (ms₁.filterMap flatKept).filter (fun p => decide (p.1 = k)) = []
  · have hc₂ : (ms₂.filterMap flatKept).filter (fun p => decide (p.1 = k)) = [] :=
      (hc ▸ hp).symm.eq_nil
    rw [hc, hc₂]
  · have hc₂ : (ms₂.filterMap flatKept).filter (fun p => decide (p.1 = k)) ≠ [] := by
      intro h2
      exact hc (h2 ▸ hp).eq_nil
    rw [if_neg (by simp [List.isEmpty_iff, hc]), if_neg (by simp [List.isEmpty_iff, hc₂]),
      hsum]

theorem normalizeModifiers_flat_eq (cid : Option String) (ids : List (Option String))
    (q : JsVal) :
    normalizeModifiers ⟨cid, none, some ids, q⟩ = sortEntries (flatGroup ids) := rfl

/-- C5: normalization is invariant under permutation of a line's flat
modifier-id list: the two raw lines produce the same sorted modifier
signature and, having the same catalog id, group into one normalized line. -/
theorem claim5_modifier_order_invariance (id : String) (q₁ q₂ : JsVal)
    (ms₁ ms₂ : List (Option String)) (hperm : ms₁.Perm ms₂) (hid : jsTrim id ≠ "") :
    normalizeModifiers ⟨some id, none, some ms₁, q₁⟩ =
        normalizeModifiers ⟨some id, none, some ms₂, q₂⟩ ∧
      (normalizeCartLines
        [⟨some id, none, some ms₁, q₁⟩, ⟨some id, none, some ms₂, q₂⟩]).length = 1 := by
  have hmods : normalizeModifiers ⟨some id, none, some ms₁, q₁⟩ =
      normalizeModifiers ⟨some id, none, some ms₂, q₂⟩ := by
    rw [normalizeModifiers_flat_eq, normalizeModifiers_flat_eq]
    exact sortEntries_eq_of_perm (flatGroup_perm hperm)
  refine ⟨hmods, ?_⟩
  have hid₁ : jsTrimId ⟨some id, none, some ms₁, q₁⟩ ≠ "" := hid
  have hid₂ : jsTrimId ⟨some id, none, some ms₂, q₂⟩ ≠ "" := hid
  rw [length_normalizeCartLines_two (normLineOf_of_kept hid₁) (normLineOf_of_kept hid₂)]
  rw [if_pos]
  rw [show jsTrimId ⟨some id, none, some ms₁, q₁⟩ =
    jsTrimId ⟨some id, none, some ms₂, q₂⟩ from rfl, hmods]

/-- Witness for C5: the spec's example, `["M2","M1"]` against `["M1","M2"]`. -/
theorem claim5_modifier_order_invariance_witness :
    normalizeModifiers ⟨some "A", none, some [some "M2", some "M1"], .undef⟩ =
        normalizeModifiers ⟨some "A", none, some [some "M1", some "M2"], .undef⟩ ∧
      (normalizeCartLines
        [⟨some "A", none, some [some "M2", some "M1"], .undef⟩,
          ⟨some "A", none, some [some "M1", some "M2"], .undef⟩]).length = 1 :=
  claim5_modifier_order_invariance "A" .undef .undef _ _
    (List.Perm.swap (some "M1") (some "M2") []) (by decide)

theorem sum_ones : ∀ (l : List Int), (∀ x ∈ l, x = 1) → l.sum = l.length
  | [], _ => rfl
  | x :: l, h => by
    rw [List.sum_cons, h x (List.mem_cons_self x l),
      sum_ones l (fun y hy => h y (List.mem_cons_of_mem x hy))]
    simp [add_comm]

theorem flatKept_snd {mid : Option String} {p : String × Int}
    (h : flatKept mid = some p) : p.2 = 1 := by
  unfold flatKept at h
  by_cases hc : jsTrim (mid.getD "") = ""
  · rw [if_pos hc] at h
    cases h
  · rw [if_neg hc] at h
    rw [← Option.some_inj.mp h]

/-- C6: the two accepted modifier shapes are checked in priority order.
If the structured list groups to a non-empty map, it is used exclusively
(whatever the flat list holds); only when it groups to the empty map — which
happens exactly when every structured entry is filtered out — is the flat
list used. Structured duplicate ids sum their coerced quantities; each kept
flat entry contributes exactly 1, so a flat id's quantity is its number of
kept occurrences. -/
theorem claim6_shape_priority (cid : Option String) (mods : List ModEntry)
    (ids : List (Option String)) (q : JsVal) :
    (structGroup mods ≠ [] →
        normalizeModifiers ⟨cid, some mods, some ids, q⟩ =
          sortEntries (structGroup mods)) ∧
      (structGroup mods = [] →
        normalizeModifiers ⟨cid, some mods, some ids, q⟩ =
          sortEntries (flatGroup ids)) ∧
      (structGroup mods = [] ↔ mods.filterMap modKept = []) ∧
      (∀ k, alistFind (structGroup mods) k =
        (if ((mods.filterMap modKept).filter (fun p => decide (p.1 = k))).isEmpty then none
          else some (((mods.filterMap modKept).filter
            (fun p => decide (p.1 = k))).map Prod.snd).sum)) ∧
      (∀ k, alistFind (flatGroup ids) k =
        (if ((ids.filterMap flatKept).filter (fun p => decide (p.1 = k))).isEmpty then none
          else some (((ids.filterMap flatKept).filter
            (fun p => decide (p.1 = k))).length : Int))) := by
  refine ⟨?_, ?_, ?_, ?_, ?_⟩
  · intro h
    simp only [normalizeModifiers]
    rw [if_neg (by simp [List.isEmpty_iff, h])]
  · intro h
    simp only [normalizeModifiers]
    rw [if_pos (by simp [List.isEmpty_iff, h])]
  · exact groupFold_nil_iff modKept mods
  · intro k
    exact alistFind_groupFold modKept mods k
  · intro k
    have h0 : alistFind (flatGroup ids) k =
        (if ((ids.filterMap flatKept).filter (fun p => decide (p.1 = k))).isEmpty then none
          else some (((ids.filterMap flatKept).filter
            (fun p => decide (p.1 = k))).map Prod.snd).sum) :=
      alistFind_groupFold flatKept ids k
    rw [h0]
    by_cases hc : (ids.filterMap flatKept).filter (fun p => decide (p.1 = k)) = []
    · rw [hc]
      rfl
    · rw [if_neg (by simp [List.isEmpty_iff, hc]), if_neg (by simp [List.isEmpty_iff, hc])]
      rw [sum_ones]
      · simp
      · intro x hx
        rcases List.mem_map.mp hx with ⟨p, hp, rfl⟩
        have hpm : p ∈ ids.filterMap flatKept := List.mem_of_mem_filter hp
        rcases List.mem_filterMap.mp hpm with ⟨mid, _, hk⟩
        exact flatKept_snd hk

/-- Witness for C6: a mixed payload whose structured list filters to empty
(whitespace-only id, non-object entry) falls back to the flat list, while a
non-empty structured list is used exclusively, summing duplicate ids. -/
theorem claim6_shape_priority_witness :
    structGroup [ModEntry.obj ⟨some "  ", .num (.fin 2)⟩, ModEntry.nonObj] = [] ∧
      normalizeModifiers ⟨some "A",
          some [ModEntry.obj ⟨some "  ", .num (.fin 2)⟩, ModEntry.nonObj],
          some [some "F"], .undef⟩ = [("F", 1)] ∧
      normalizeModifiers ⟨some "A",
          some [ModEntry.obj ⟨some "S", .num (.fin 2)⟩, ModEntry.obj ⟨some "S", .num (.fin 3)⟩],
          some [some "F"], .undef⟩ = [("S", 5)] := by
  refine ⟨by decide, ?_, ?_⟩
  · rw [(claim6_shape_priority (some "A")
      [ModEntry.obj ⟨some "  ", .num (.fin 2)⟩, ModEntry.nonObj]
      [some "F"] .undef).2.1 (by decide)]
    decide
  · rw [(claim6_shape_priority (some "A")
      [ModEntry.obj ⟨some "S", .num (.fin 2)⟩, ModEntry.obj ⟨some "S", .num (.fin 3)⟩]
      [some "F"] .undef).1 (by decide)]
    decide

/-! ## Environment selection (C3) -/

/-- C3: environment selection precedence. A sandbox-patterned app id (prefix
`"sandbox-"` or substring `"sq0idb-"`) selects the sandbox endpoint even when
the explicit flag says production and even when the production pattern also
matches; otherwise the production pattern selects production; otherwise the
explicit flag `"production"` (case-insensitively) selects production;
otherwise sandbox is the default. -/
theorem claim3_environment_precedence (cfg : EnvConfig) (appId envFlag : String)
    (ha : appId = orFalsy cfg.squareAppId (orFalsy cfg.publicSquareAppId ""))
    (he : envFlag = jsToLower (orFalsy cfg.squareEnvironment "")) :
    ((strStartsWithPat appId "sandbox-" || strIncludes appId "sq0idb-") = true →
        resolveSquareEnvironment cfg = "sandbox" ∧
          getSquareApiBase cfg = "https://connect.squareupsandbox.com") ∧
      ((strStartsWithPat appId "sandbox-" || strIncludes appId "sq0idb-") = false →
        strIncludes appId "sq0idp-" = true →
        resolveSquareEnvironment cfg = "production" ∧
          getSquareApiBase cfg = "https://connect.squareup.com") ∧
      ((strStartsWithPat appId "sandbox-" || strIncludes appId "sq0idb-") = false →
        strIncludes appId "sq0idp-" = false →
        envFlag = "production" →
        resolveSquareEnvironment cfg = "production" ∧
          getSquareApiBase cfg = "https://connect.squareup.com") ∧
      ((strStartsWithPat appId "sandbox-" || strIncludes appId "sq0idb-") = false →
        strIncludes appId "sq0idp-" = false →
        envFlag ≠ "production" →
        resolveSquareEnvironment cfg = "sandbox" ∧
          getSquareApiBase cfg = "https://connect.squareupsandbox.com") := by
  subst ha he
  refine ⟨?_, ?_, ?_, ?_⟩
  · intro h1
    have e : resolveSquareEnvironment cfg = "sandbox" := by
      simp only [resolveSquareEnvironment]
      rw [h1]
      rfl
    exact ⟨e, by rw [getSquareApiBase, e]; rfl⟩
  · intro h1 h2
    have e : resolveSquareEnvironment cfg = "production" := by
      simp only [resolveSquareEnvironment]
      rw [h1, h2]
      rfl
    exact ⟨e, by rw [getSquareApiBase, e]; rfl⟩
  · intro h1 h2 h3
    have e : resolveSquareEnvironment cfg = "production" := by
      simp only [resolveSquareEnvironment]
      rw [h1, h2, if_pos h3]
      rfl
    exact ⟨e, by rw [getSquareApiBase, e]; rfl⟩
  · intro h1 h2 h3
    have e : resolveSquareEnvironment cfg = "sandbox" := by
      simp only [resolveSquareEnvironment]
      rw [h1, h2, if_neg h3]
      rfl
    exact ⟨e, by rw [getSquareApiBase, e]; rfl⟩

/-- Witness for C3: sandbox app id beats an explicit production flag (also
when the production pattern occurs inside the same id); production pattern
selects production; explicit flag works case-insensitively; all-absent
defaults to sandbox. -/
theorem claim3_environment_precedence_witness :
    getSquareApiBase ⟨some "production", some "sandbox-sq0idp-x", none, none, none⟩ =
        "https://connect.squareupsandbox.com" ∧
      getSquareApiBase ⟨none, some "sq0idp-x", none, none, none⟩ =
        "https://connect.squareup.com" ∧
      getSquareApiBase ⟨some "PRODUCTION", none, none, none, none⟩ =
        "https://connect.squareup.com" ∧
      getSquareApiBase ⟨none, none, none, none, none⟩ =
        "https://connect.squareupsandbox.com" := by
  refine ⟨?_, ?_, ?_, ?_⟩
  · exact ((claim3_environment_precedence
      ⟨some "production", some "sandbox-sq0idp-x", none, none, none⟩
      _ _ rfl rfl).1 (by decide)).2
  · exact (((claim3_environment_precedence
      ⟨none, some "sq0idp-x", none, none, none⟩
      _ _ rfl rfl).2.1 (by decide)) (by decide)).2
  · exact ((((claim3_environment_precedence
      ⟨some "PRODUCTION", none, none, none, none⟩
      _ _ rfl rfl).2.2.1 (by decide)) (by decide)) (by decide)).2
  · exact ((((claim3_environment_precedence
      ⟨none, none, none, none, none⟩
      _ _ rfl rfl).2.2.2 (by decide)) (by decide)) (by decide)).2

/-! ## Quantity coercion (C7) -/

/-- C7, counterexample: the raw quantity 0.5 parses as a finite positive
number, so the coercion floors it — to 0, which is not a positive integer.
This refutes the claim's conclusion that every coerced quantity is a
positive integer (and the spec's edge-case note that no output quantity may
be zero). -/
theorem claim7_counterexample :
    normalizeQuantity (.num (.fin (mkRat 1 2))) = 0 ∧
      ¬ 1 ≤ normalizeQuantity (.num (.fin (mkRat 1 2))) := by
  exact ⟨by decide, by decide⟩

/-- C7 (amended): quantity coercion is total and parses its input as a
number; non-finite results and results ≤ 0 coerce to 1, finite positive
results are floored. The floor is a positive integer for parsed values ≥ 1,
but values strictly between 0 and 1 floor to 0, so outputs are only
guaranteed non-negative (not positive). "abc", -5, 0 and 3.7 coerce to
1, 1, 1, 3 as claimed. -/
theorem claim7_quantity_coercion :
    (∀ (v : JsVal) (q : ℚ), jsToNumber v = JNum.fin q → q ≤ 0 →
        normalizeQuantity v = 1) ∧
      (∀ (v : JsVal) (q : ℚ), jsToNumber v = JNum.fin q → 0 < q →
        normalizeQuantity v = q.floor) ∧
      (∀ v : JsVal, (jsToNumber v = JNum.nan ∨ jsToNumber v = JNum.inf ∨
        jsToNumber v = JNum.ninf) → normalizeQuantity v = 1) ∧
      (∀ v : JsVal, 0 ≤ normalizeQuantity v) ∧
      (∀ (v : JsVal) (q : ℚ), jsToNumber v = JNum.fin q → 1 ≤ q →
        1 ≤ normalizeQuantity v) ∧
      normalizeQuantity (.str "abc") = 1 ∧
      normalizeQuantity (.num (.fin (-5))) = 1 ∧
      normalizeQuantity (.num (.fin 0)) = 1 ∧
      normalizeQuantity (.str "3.7") = 3 := by
  have hfin : ∀ (v : JsVal) (q : ℚ), jsToNumber v = JNum.fin q →
      normalizeQuantity v = if q ≤ 0 then 1 else q.floor := by
    intro v q h
    rw [normalizeQuantity, h]
  refine ⟨?_, ?_, ?_, ?_, ?_, by decide, by decide, by decide, by decide⟩
  · intro v q h hq
    rw [hfin v q h, if_pos hq]
  · intro v q h hq
    rw [hfin v q h, if_neg (not_le.mpr hq)]
  · intro v h
    rcases h with h | h | h <;> rw [normalizeQuantity, h]
  · intro v
    cases hn : jsToNumber v with
    | fin q =>
      rw [hfin v q hn]
      by_cases hq : q ≤ 0
      · rw [if_pos hq]
        exact Int.zero_le_ofNat 1
      · rw [if_neg hq]
        exact Rat.le_floor.mpr (by push_cast; exact le_of_lt (not_le.mp hq))
    | nan => rw [normalizeQuantity, hn]; exact Int.zero_le_ofNat 1
    | inf => rw [normalizeQuantity, hn]; exact Int.zero_le_ofNat 1
    | ninf => rw [normalizeQuantity, hn]; exact Int.zero_le_ofNat 1
  · intro v q h hq
    rw [hfin v q h, if_neg (not_le.mpr (lt_of_lt_of_le zero_lt_one hq))]
    exact Rat.le_floor.mpr (by push_cast; exact hq)

/-- Witness for C7 (amended): the floor branch at 3.7 and the ≤-0 branch
at -5, via the theorem. -/
theorem claim7_quantity_coercion_witness :
    normalizeQuantity (.num (.fin (mkRat 37 10))) = (mkRat 37 10).floor ∧
      normalizeQuantity (.num (.fin (-5))) = 1 := by
  constructor
  · exact claim7_quantity_coercion.2.1 (.num (.fin (mkRat 37 10))) (mkRat 37 10)
      rfl (by decide)
  · exact claim7_quantity_coercion.1 (.num (.fin (-5))) (-5) rfl (by decide)

/-! ## The create-order endpoint on invalid carts (C9) -/

/-- C9: when the request body is missing, non-JSON, lacks a cart array, or
its cart normalizes to zero lines, the create-order handler returns status
400 with the JSON error "Cart is empty or invalid." and issues no gateway
call — never a 500 and never an unhandled fault. -/
theorem claim9_empty_cart_rejected (cfg : EnvConfig) (body : Option OrdersBody)
    (gw : GatewayCall → SquareResult)
    (h : normalizeCartLines ((body.bind (fun b => b.cart)).getD []) = []) :
    ordersPOST cfg body gw = (⟨400, .err "Cart is empty or invalid."⟩, []) := by
  simp only [ordersPOST]
  rw [h]
  rfl

/-- Witness for C9: a missing body, a body without a cart array, and the
empty cart `{cart: []}` all take the 400 path with no gateway call. -/
theorem claim9_empty_cart_rejected_witness :
    ordersPOST ⟨none, none, none, some "tok", some "L"⟩ none (fun _ => .httpErr "x") =
        (⟨400, .err "Cart is empty or invalid."⟩, []) ∧
      ordersPOST ⟨none, none, none, some "tok", some "L"⟩ (some ⟨none⟩)
          (fun _ => .httpErr "x") =
        (⟨400, .err "Cart is empty or invalid."⟩, []) ∧
      ordersPOST ⟨none, none, none, some "tok", some "L"⟩ (some ⟨some []⟩)
          (fun _ => .httpErr "x") =
        (⟨400, .err "Cart is empty or invalid."⟩, []) :=
  ⟨claim9_empty_cart_rejected _ _ _ (by decide),
    claim9_empty_cart_rejected _ _ _ (by decide),
    claim9_empty_cart_rejected _ _ _ (by decide)⟩

/-! ## Location resolution (C10) -/

/-- C10: a location override resolving to a falsy value (absent or the empty
string) is skipped: the resolver issues the live list-locations call and
selects the first entry whose status is exactly "ACTIVE" (case-sensitive),
yielding null when none matches; any entry it does select carries the exact
status "ACTIVE". -/
theorem claim10_falsy_override_ignored (cfg : EnvConfig)
    (gw : GatewayCall → SquareResult)
    (hf : cfg.squareLocationId = none ∨ cfg.squareLocationId = some "")
    (locs : List LocationObj) (p : Payload)
    (hok : gw GatewayCall.listLocations = .ok p) (hlocs : p.locations = some locs)
    (htok : truthy cfg.squareAccessToken = true) :
    resolveLocationId cfg gw =
        (.ok (match firstActive locs with
          | some loc => falsyToNone loc.id
          | none => none), [GatewayCall.listLocations]) ∧
      (firstActive locs = none → (resolveLocationId cfg gw).1 = .ok none) ∧
      (∀ loc, firstActive locs = some loc → loc.status = some "ACTIVE") := by
  have hft : truthy cfg.squareLocationId = false := by
    rcases hf with hf | hf <;> rw [hf] <;> rfl
  have hmain : resolveLocationId cfg gw =
      (.ok (match firstActive locs with
        | some loc => falsyToNone loc.id
        | none => none), [GatewayCall.listLocations]) := by
    rw [resolveLocationId, if_neg (by rw [hft]; exact Bool.false_ne_true)]
    rw [squareRequest, if_pos htok, hok]
    dsimp only
    rw [hlocs]
    rfl
  refine ⟨hmain, ?_, ?_⟩
  · intro hnone
    rw [hmain, hnone]
  · intro loc hloc
    rw [firstActive] at hloc
    have h2 := List.find?_some hloc
    exact of_decide_eq_true h2

/-- Witness for C10: an empty-string override triggers the lookup; the
lowercase status "active" is skipped and the first exact "ACTIVE" entry is
chosen. -/
theorem claim10_falsy_override_ignored_witness :
    resolveLocationId ⟨none, none, none, some "tok", some ""⟩
        (fun c => match c with
          | GatewayCall.listLocations =>
            .ok ⟨none, some [⟨some "L1", some "active"⟩, ⟨some "L2", some "ACTIVE"⟩,
              ⟨some "L3", some "ACTIVE"⟩], none⟩
          | _ => .httpErr "x") =
      (.ok (some "L2"), [GatewayCall.listLocations]) := by
  have h := (claim10_falsy_override_ignored ⟨none, none, none, some "tok", some ""⟩
    (fun c => match c with
      | GatewayCall.listLocations =>
        .ok ⟨none, some [⟨some "L1", some "active"⟩, ⟨some "L2", some "ACTIVE"⟩,
          ⟨some "L3", some "ACTIVE"⟩], none⟩
      | _ => .httpErr "x")
    (Or.inr rfl)
    [⟨some "L1", some "active"⟩, ⟨some "L2", some "ACTIVE"⟩, ⟨some "L3", some "ACTIVE"⟩]
    ⟨none, some [⟨some "L1", some "active"⟩, ⟨some "L2", some "ACTIVE"⟩,
      ⟨some "L3", some "ACTIVE"⟩], none⟩
    rfl rfl rfl).1
  rw [h]
  decide

/-! ## Checkout orchestration: the undetermined-total guard (C2) -/

theorem resolveLocationId_calls (cfg : EnvConfig) (gw : GatewayCall → SquareResult) :
    (resolveLocationId cfg gw).2 = [] ∨
      (resolveLocationId cfg gw).2 = [GatewayCall.listLocations] := by
  rw [resolveLocationId]
  by_cases hc : truthy cfg.squareLocationId = true
  · rw [if_pos hc]
    exact Or.inl rfl
  · rw [if_neg hc]
    rw [squareRequest]
    by_cases ht : truthy cfg.squareAccessToken = true
    · rw [if_pos ht]
      cases gw GatewayCall.listLocations with
      | ok p => exact Or.inr rfl
      | httpErr m => exact Or.inr rfl
    · rw [if_neg ht]
      exact Or.inl rfl

/-- C2: in the checkout flow, whenever the order-creation call succeeds but
its response carries a falsy order id or a total-money amount that does not
parse to a finite positive number (0 included), the handler fails with
status 500 and exactly the message "Unable to determine order total for
payment.", and no payment-capture call is ever issued: the amount is never
defaulted and capture never proceeds. -/
theorem claim2_undetermined_total (cfg : EnvConfig) (body : Option CheckoutBody)
    (gw : GatewayCall → SquareResult) (p : Payload) (loc : String)
    (hsrc : ¬ jsTrim ((body.bind (fun b => b.sourceId)).getD "") = "")
    (hcart : (Checkout.normalizeCartLines
      ((body.bind (fun b => b.cart)).getD [])).isEmpty = false)
    (htok : truthy cfg.squareAccessToken = true)
    (hloc : (resolveLocationId cfg gw).1 = .ok (some loc)) (hlocne : loc ≠ "")
    (hord : gw (GatewayCall.createOrder loc
      (mkCheckoutLineItems (Checkout.normalizeCartLines
        ((body.bind (fun b => b.cart)).getD [])))) = .ok p)
    (hbad : truthy (p.order.bind (fun o => o.id)) = false ∨
      (∀ a : ℚ, jsToNumber (match p.order.bind (fun o => o.total_money) with
        | some tm => tm.amount
        | none => .undef) = JNum.fin a → a ≤ 0)) :
    (checkoutPOST cfg body gw).1 =
        ⟨500, .err "Unable to determine order total for payment."⟩ ∧
      ∀ (src l : String) (a : ℚ) (c o : String) (ac : Bool) (be : Option String),
        GatewayCall.createPayment src l a c o ac be ∉ (checkoutPOST cfg body gw).2 := by
  have hlc := resolveLocationId_calls cfg gw
  rcases hres : resolveLocationId cfg gw with ⟨lres, lcalls⟩
  rw [hres] at hloc hlc
  simp only at hloc hlc
  subst hloc
  have heq : checkoutPOST cfg body gw =
      (⟨500, .err "Unable to determine order total for payment."⟩,
        lcalls ++ [GatewayCall.createOrder loc
          (mkCheckoutLineItems (Checkout.normalizeCartLines
            ((body.bind (fun b => b.cart)).getD [])))]) := by
    simp only [checkoutPOST]
    rw [if_neg hsrc, hcart]
    simp only [Bool.false_eq_true, if_false]
    rw [hres]
    simp only
    rw [if_pos (by simp [truthy, hlocne])]
    rw [squareRequest, if_pos htok]
    simp only [Option.getD_some]
    rw [hord]
    simp only
    cases ham : jsToNumber (match p.order.bind (fun o => o.total_money) with
      | some tm => tm.amount
      | none => .undef) with
    | fin a =>
      dsimp only
      rcases hbad with hbad | hbad
      · rw [hbad]
        simp
      · have ha : decide (0 < a) = false := by
          simp only [decide_eq_false_iff_not, not_lt]
          exact hbad a ham
        rw [ha]
        simp
    | nan => rfl
    | inf => rfl
    | ninf => rfl
  constructor
  · rw [heq]
  · intro src l a c o ac be hmem
    rw [heq] at hmem
    simp only [List.mem_append, List.mem_singleton] at hmem
    rcases hmem with hmem | hmem
    · rcases hlc with hlc | hlc
      · rw [hlc] at hmem
        exact List.not_mem_nil _ hmem
      · rw [hlc] at hmem
        exact GatewayCall.noConfusion (List.mem_singleton.mp hmem)
    · exact GatewayCall.noConfusion hmem

/-- Witness for C2: a checkout whose order-creation response reports total 0
fails with the undetermined-total error and never issues the capture call. -/
theorem claim2_undetermined_total_witness :
    (checkoutPOST ⟨none, none, none, some "tok", some "LOC"⟩
        (some ⟨some [⟨some "A", none, .num (.fin 1)⟩], some "src", none⟩)
        (fun c => match c with
          | GatewayCall.createOrder _ _ =>
            .ok ⟨some ⟨some "ord1", some "OPEN", some ⟨.num (.fin 0), some "USD"⟩⟩,
              none, none⟩
          | _ => .httpErr "unexpected")).1 =
      ⟨500, .err "Unable to determine order total for payment."⟩ ∧
      GatewayCall.createPayment "src" "LOC" 0 "USD" "ord1" true none ∉
        (checkoutPOST ⟨none, none, none, some "tok", some "LOC"⟩
          (some ⟨some [⟨some "A", none, .num (.fin 1)⟩], some "src", none⟩)
          (fun c => match c with
            | GatewayCall.createOrder _ _ =>
              .ok ⟨some ⟨some "ord1", some "OPEN", some ⟨.num (.fin 0), some "USD"⟩⟩,
                none, none⟩
            | _ => .httpErr "unexpected")).2 := by
  have h := claim2_undetermined_total
    ⟨none, none, none, some "tok", some "LOC"⟩
    (some ⟨some [⟨some "A", none, .num (.fin 1)⟩], some "src", none⟩)
    (fun c => match c with
      | GatewayCall.createOrder _ _ =>
        .ok ⟨some ⟨some "ord1", some "OPEN", some ⟨.num (.fin 0), some "USD"⟩⟩,
          none, none⟩
      | _ => .httpErr "unexpected")
    ⟨some ⟨some "ord1", some "OPEN", some ⟨.num (.fin 0), some "USD"⟩⟩, none, none⟩
    "LOC"
    (by decide) (by decide) rfl (by decide) (by decide) rfl
    (Or.inr (fun a ha => by
      have ha' : JNum.fin (0 : ℚ) = JNum.fin a := ha
      have h0 : (0 : ℚ) = a := JNum.fin.inj ha'
      rw [← h0]))
  exact ⟨h.1, h.2 "src" "LOC" 0 "USD" "ord1" true none⟩

/-! ## Idempotence of the normalizer (C8): trim and quantity fixed points -/

theorem head?_dropWhile_false {α : Type} {p : α → Bool} {l : List α} {a : α}
    (h : (l.dropWhile p).head? = some a) : p a = false := by
  have h2 := List.head?_dropWhile_not p l
  rw [h] at h2
  exact h2

theorem dropWhile_of_head {α : Type} {p : α → Bool} :
    ∀ {l : List α}, (∀ a, l.head? = some a → p a = false) → l.dropWhile p = l
  | [], _ => rfl
  | a :: l, h => by
    rw [List.dropWhile_cons, h a rfl]
    simp

theorem getLast?_trimList {l : List Char} {c : Char}
    (h : (trimList l).getLast? = some c) : isWsChar c = false := by
  rw [trimList, List.getLast?_reverse] at h
  exact head?_dropWhile_false h

theorem getLast?_dropWhile {α : Type} (p : α → Bool) (l : List α)
    (hne : l.dropWhile p ≠ []) : (l.dropWhile p).getLast? = l.getLast? := by
  rcases (List.dropWhile_suffix p (l := l)) with ⟨t, ht⟩
  conv_rhs => rw [← ht]
  rw [List.getLast?_append]
  cases hg : (l.dropWhile p).getLast? with
  | none => exact absurd (List.getLast?_eq_none_iff.mp hg) hne
  | some c => rfl

theorem head?_trimList {l : List Char} {c : Char}
    (h : (trimList l).head? = some c) : isWsChar c = false := by
  rw [trimList, List.head?_reverse] at h
  have hne : (l.dropWhile isWsChar).reverse.dropWhile isWsChar ≠ [] := by
    intro hnil
    rw [hnil] at h
    cases h
  rw [getLast?_dropWhile isWsChar _ hne, List.getLast?_reverse] at h
  exact head?_dropWhile_false h

theorem trimList_idem (l : List Char) : trimList (trimList l) = trimList l := by
  have h1 : (trimList l).dropWhile isWsChar = trimList l :=
    dropWhile_of_head (fun a ha => head?_trimList ha)
  have h2 : (trimList l).reverse.dropWhile isWsChar = (trimList l).reverse :=
    dropWhile_of_head (fun a ha => by
      rw [List.head?_reverse] at ha
      exact getLast?_trimList ha)
  calc trimList (trimList l)
      = (((trimList l).dropWhile isWsChar).reverse.dropWhile isWsChar).reverse := rfl
    _ = ((trimList l).reverse.dropWhile isWsChar).reverse := by rw [h1]
    _ = (trimList l).reverse.reverse := by rw [h2]
    _ = trimList l := List.reverse_reverse _

theorem jsTrim_idem (s : String) : jsTrim (jsTrim s) = jsTrim s := by
  rw [jsTrim, jsTrim]
  exact congrArg String.mk (trimList_idem s.data)

theorem ratFloor_eq_intFloor (q : ℚ) : q.floor = ⌊q⌋ :=
  (Rat.floor_def' q).trans Rat.floor_def.symm

theorem normalizeQuantity_intCast {i : Int} (h : 1 ≤ i) :
    normalizeQuantity (.num (.fin (i : ℚ))) = i := by
  rw [normalizeQuantity]
  have hpos : ¬ ((i : ℚ) ≤ 0) := by
    rw [not_le]
    exact_mod_cast lt_of_lt_of_le Int.zero_lt_one h
  rw [show jsToNumber (.num (.fin (i : ℚ))) = JNum.fin (i : ℚ) from rfl]
  dsimp only
  rw [if_neg hpos, ratFloor_eq_intFloor, Int.floor_intCast]

theorem modKept_props {me : ModEntry} {p : String × Int} (h : modKept me = some p) :
    jsTrim p.1 = p.1 ∧ p.1 ≠ "" := by
  cases me with
  | nonObj => cases h
  | obj m =>
    simp only [modKept] at h
    by_cases hc : jsTrim (m.catalog_object_id.getD "") = ""
    · rw [if_pos hc] at h
      cases h
    · rw [if_neg hc] at h
      rw [← Option.some_inj.mp h]
      exact ⟨jsTrim_idem _, hc⟩

theorem flatKept_props {mid : Option String} {p : String × Int}
    (h : flatKept mid = some p) : jsTrim p.1 = p.1 ∧ p.1 ≠ "" := by
  unfold flatKept at h
  by_cases hc : jsTrim (mid.getD "") = ""
  · rw [if_pos hc] at h
    cases h
  · rw [if_neg hc] at h
    rw [← Option.some_inj.mp h]
    exact ⟨jsTrim_idem _, hc⟩

theorem groupFold_key_props {α : Type} (keyval : α → Option (String × Int))
    (hkv : ∀ (x : α) (p : String × Int), keyval x = some p → jsTrim p.1 = p.1 ∧ p.1 ≠ "")
    (xs : List α) :
    ∀ p ∈ xs.foldl (upsertStep (fun w q => w + q) keyval) [],
      jsTrim p.1 = p.1 ∧ p.1 ≠ "" := by
  refine foldl_upsertStep_forall _ keyval ?_ xs [] (by simp) ?_
  · intro k w v hw _
    exact hw
  · intro x _ p hp
    exact hkv x p hp

theorem sortEntries_facts (g : List (String × Int)) (hnd : (keysOfA g).Nodup)
    (hp : ∀ p ∈ g, jsTrim p.1 = p.1 ∧ p.1 ≠ "") :
    ((sortEntries g).map Prod.fst).Nodup ∧
      (∀ p ∈ sortEntries g, jsTrim p.1 = p.1 ∧ p.1 ≠ "") ∧
      List.Sorted entryLeP (sortEntries g) := by
  have hperm : (sortEntries g).Perm g := List.perm_insertionSort entryLeP g
  refine ⟨?_, ?_, List.sorted_insertionSort entryLeP g⟩
  · exact ((hperm.map Prod.fst).nodup_iff).mpr hnd
  · intro p hpm
    exact hp p (hperm.mem_iff.mp hpm)

theorem normalizeModifiers_is_sortEntries (line : IncomingCartLine) :
    ∃ g, normalizeModifiers line = sortEntries g ∧ (keysOfA g).Nodup ∧
      ∀ p ∈ g, jsTrim p.1 = p.1 ∧ p.1 ≠ "" := by
  simp only [normalizeModifiers]
  cases hm : line.modifiers with
  | some ms =>
    by_cases he : (structGroup ms).isEmpty = true
    · rw [if_pos he]
      cases hf : line.modifier_catalog_object_ids with
      | some ids =>
        exact ⟨flatGroup ids, rfl, nodup_keys_groupFold flatKept ids,
          groupFold_key_props flatKept (fun x p h => flatKept_props h) ids⟩
      | none =>
        exact ⟨structGroup ms, rfl, nodup_keys_groupFold modKept ms,
          groupFold_key_props modKept (fun x p h => modKept_props h) ms⟩
    · rw [if_neg he]
      exact ⟨structGroup ms, rfl, nodup_keys_groupFold modKept ms,
        groupFold_key_props modKept (fun x p h => modKept_props h) ms⟩
  | none =>
    simp only [List.isEmpty_nil, if_true]
    cases hf : line.modifier_catalog_object_ids with
    | some ids =>
      exact ⟨flatGroup ids, rfl, nodup_keys_groupFold flatKept ids,
        groupFold_key_props flatKept (fun x p h => flatKept_props h) ids⟩
    | none =>
      exact ⟨[], rfl, List.nodup_nil, by simp⟩

theorem normalizeModifiers_canonical (line : IncomingCartLine) :
    ((normalizeModifiers line).map Prod.fst).Nodup ∧
      (∀ p ∈ normalizeModifiers line, jsTrim p.1 = p.1 ∧ p.1 ≠ "") ∧
      List.Sorted entryLeP (normalizeModifiers line) := by
  rcases normalizeModifiers_is_sortEntries line with ⟨g, hg, hnd, hp⟩
  rw [hg]
  exact sortEntries_facts g hnd hp

theorem filterMap_eq_self_of_some {α : Type} (g : α → Option α) :
    ∀ l : List α, (∀ x ∈ l, g x = some x) → l.filterMap g = l
  | [], _ => rfl
  | x :: l, h => by
    rw [List.filterMap_cons, h x (List.mem_cons_self x l),
      filterMap_eq_self_of_some g l (fun y hy => h y (List.mem_cons_of_mem x hy))]

theorem structGroup_canonical (es : List (String × Int))
    (hks : (es.map Prod.fst).Nodup)
    (hprops : ∀ e ∈ es, jsTrim e.1 = e.1 ∧ e.1 ≠ "" ∧ 1 ≤ e.2) :
    structGroup (es.map (fun e => ModEntry.obj ⟨some e.1, .num (.fin (e.2 : ℚ))⟩)) = es := by
  have hkept : ∀ e ∈ es, modKept (ModEntry.obj ⟨some e.1, .num (.fin (e.2 : ℚ))⟩) = some e := by
    intro e he
    rcases hprops e he with ⟨ht, hne, hq⟩
    simp only [modKept, Option.getD_some]
    rw [ht, if_neg hne, normalizeQuantity_intCast hq]
  have hfm : (es.map (fun e => ModEntry.obj ⟨some e.1, .num (.fin (e.2 : ℚ))⟩)).filterMap
      modKept = es := by
    rw [List.filterMap_map]
    exact filterMap_eq_self_of_some _ es (fun e he => hkept e he)
  rw [structGroup, foldl_upsertStep_append_of_fresh _ modKept _ []
    (by rw [hfm]; simpa [keysOfA] using hks)]
  rw [hfm]
  rfl

theorem normalizeModifiers_toRaw (n : NormalizedLine)
    (hks : (n.modifierEntries.map Prod.fst).Nodup)
    (hprops : ∀ e ∈ n.modifierEntries, jsTrim e.1 = e.1 ∧ e.1 ≠ "" ∧ 1 ≤ e.2)
    (hsorted : List.Sorted entryLeP n.modifierEntries) :
    normalizeModifiers (toRaw n) = n.modifierEntries := by
  simp only [normalizeModifiers, toRaw]
  rw [structGroup_canonical n.modifierEntries hks hprops]
  rw [ite_self]
  exact hsorted.insertionSort_eq

theorem normLineOf_toRaw (n : NormalizedLine)
    (hid : jsTrim n.catalogObjectId = n.catalogObjectId) (hidne : n.catalogObjectId ≠ "")
    (hks : (n.modifierEntries.map Prod.fst).Nodup)
    (hprops : ∀ e ∈ n.modifierEntries, jsTrim e.1 = e.1 ∧ e.1 ≠ "" ∧ 1 ≤ e.2)
    (hsorted : List.Sorted entryLeP n.modifierEntries)
    (hq : 1 ≤ n.quantity) :
    normLineOf (toRaw n) = some (outKey n, n) := by
  have hid' : jsTrimId (toRaw n) = n.catalogObjectId := by
    simp only [jsTrimId, toRaw, Option.getD_some]
    exact hid
  have hkept : jsTrimId (toRaw n) ≠ "" := by
    rw [hid']
    exact hidne
  rw [normLineOf_of_kept hkept]
  rw [hid', normalizeModifiers_toRaw n hks hprops hsorted]
  have hqr : normalizeQuantity (toRaw n).quantity = n.quantity := by
    simp only [toRaw]
    exact normalizeQuantity_intCast hq
  rw [outKey]
  congr 1
  rw [normBase, hid', normalizeModifiers_toRaw n hks hprops hsorted, hqr]

theorem normalizeCartLines_canonical (cart : List IncomingCartLine) :
    ∀ n ∈ normalizeCartLines cart,
      jsTrim n.catalogObjectId = n.catalogObjectId ∧ n.catalogObjectId ≠ "" ∧
        (n.modifierEntries.map Prod.fst).Nodup ∧
        (∀ e ∈ n.modifierEntries, jsTrim e.1 = e.1 ∧ e.1 ≠ "") ∧
        List.Sorted entryLeP n.modifierEntries := by
  intro n hn
  rw [normalizeCartLines] at hn
  rcases List.mem_map.mp hn with ⟨p, hp, rfl⟩
  have he : normStep = upsertStep
      (fun old nl => { old with quantity := old.quantity + nl.quantity }) normLineOf := by
    funext m l
    rfl
  rw [he] at hp
  refine foldl_upsertStep_forall
    (P := fun q => jsTrim q.2.catalogObjectId = q.2.catalogObjectId ∧
      q.2.catalogObjectId ≠ "" ∧ (q.2.modifierEntries.map Prod.fst).Nodup ∧
      (∀ e ∈ q.2.modifierEntries, jsTrim e.1 = e.1 ∧ e.1 ≠ "") ∧
      List.Sorted entryLeP q.2.modifierEntries)
    _ normLineOf ?_ cart [] (by simp) ?_ p hp
  · intro k w v hw _
    exact hw
  · intro l _ q hq
    rcases normLineOf_eq_some hq with ⟨rfl, hid⟩
    rcases normalizeModifiers_canonical l with ⟨hnd, hpr, hsort⟩
    exact ⟨jsTrim_idem _, hid, hnd, hpr, hsort⟩

theorem nodup_outKeys (cart : List IncomingCartLine) :
    ((normalizeCartLines cart).map outKey).Nodup := by
  rw [normalizeCartLines, List.map_map]
  have hmc : (cart.foldl normStep []).map (outKey ∘ Prod.snd) =
      (cart.foldl normStep []).map Prod.fst :=
    List.map_congr_left (fun p hp => keyed_cartFold cart p hp)
  rw [hmc]
  exact nodup_keys_cartFold cart

theorem filterMap_eq_map_of_some {α β : Type} (g : α → Option β) (f : α → β) :
    ∀ l : List α, (∀ x ∈ l, g x = some (f x)) → l.filterMap g = l.map f
  | [], _ => rfl
  | x :: l, h => by
    rw [List.filterMap_cons, h x (List.mem_cons_self x l), List.map_cons,
      filterMap_eq_map_of_some g f l (fun y hy => h y (List.mem_cons_of_mem x hy))]

/-- C8, counterexample: idempotence fails on a cart whose raw quantity is 0.5.
The first normalization floors it to quantity 0; re-reading that output as a
raw cart line re-coerces the 0 to 1 (0 is ≤ 0), so normalizing the
normalizer's output changes the line. -/
theorem claim8_counterexample :
    normalizeCartLines ((normalizeCartLines
        [⟨some "A", none, none, .num (.fin (mkRat 1 2))⟩]).map toRaw) ≠
      normalizeCartLines [⟨some "A", none, none, .num (.fin (mkRat 1 2))⟩] := by
  decide

/-- C8 (amended): the normalizer is idempotent on every cart whose normalized
output carries only positive line and modifier quantities (re-reading the
output as raw wire lines and normalizing again reproduces it exactly, in the
same order). The positivity proviso is forced by the counterexample: a raw
quantity strictly between 0 and 1 floors to 0, and 0 re-coerces to 1. -/
theorem claim8_idempotent_on_positive (cart : List IncomingCartLine)
    (hq : ∀ n ∈ normalizeCartLines cart,
      1 ≤ n.quantity ∧ ∀ e ∈ n.modifierEntries, 1 ≤ e.2) :
    normalizeCartLines ((normalizeCartLines cart).map toRaw) =
      normalizeCartLines cart := by
  have hcanon := normalizeCartLines_canonical cart
  have hlineOf : ∀ n ∈ normalizeCartLines cart,
      normLineOf (toRaw n) = some (outKey n, n) := by
    intro n hn
    rcases hcanon n hn with ⟨hid, hidne, hks, hprops, hsorted⟩
    rcases hq n hn with ⟨hq1, hq2⟩
    exact normLineOf_toRaw n hid hidne hks
      (fun e he => ⟨(hprops e he).1, (hprops e he).2, hq2 e he⟩) hsorted hq1
  have hfm : ((normalizeCartLines cart).map toRaw).filterMap normLineOf =
      (normalizeCartLines cart).map (fun n => (outKey n, n)) := by
    rw [List.filterMap_map]
    exact filterMap_eq_map_of_some _ _ _ (fun n hn => hlineOf n hn)
  have hkeys : ((((normalizeCartLines cart).map toRaw).filterMap normLineOf).map
      Prod.fst).Nodup := by
    rw [hfm, List.map_map]
    have hmc : (normalizeCartLines cart).map (Prod.fst ∘ (fun n => (outKey n, n))) =
        (normalizeCartLines cart).map outKey :=
      List.map_congr_left (fun n _ => rfl)
    rw [hmc]
    exact nodup_outKeys cart
  have he : normStep = upsertStep
      (fun old nl => { old with quantity := old.quantity + nl.quantity }) normLineOf := by
    funext m l
    rfl
  conv_lhs => rw [normalizeCartLines]
  rw [he, foldl_upsertStep_append_of_fresh _ normLineOf _ [] (by simpa using hkeys)]
  rw [hfm, List.nil_append, List.map_map]
  have hid2 : (normalizeCartLines cart).map (Prod.snd ∘ (fun n => (outKey n, n))) =
      (normalizeCartLines cart).map id :=
    List.map_congr_left (fun n _ => rfl)
  rw [hid2, List.map_id]

/-- Witness for C8 (amended): a two-line cart with duplicate submissions and
modifiers; its normalized output has positive quantities and re-normalizes to
itself. -/
theorem claim8_idempotent_on_positive_witness :
    (∀ n ∈ normalizeCartLines
        [⟨some "A", none, some [some "M"], .num (.fin 1)⟩,
          ⟨some "A", none, some [some "M"], .num (.fin 2)⟩],
      1 ≤ n.quantity ∧ ∀ e ∈ n.modifierEntries, 1 ≤ e.2) ∧
      normalizeCartLines ((normalizeCartLines
          [⟨some "A", none, some [some "M"], .num (.fin 1)⟩,
            ⟨some "A", none, some [some "M"], .num (.fin 2)⟩]).map toRaw) =
        normalizeCartLines
          [⟨some "A", none, some [some "M"], .num (.fin 1)⟩,
            ⟨some "A", none, some [some "M"], .num (.fin 2)⟩] :=
  ⟨by decide, claim8_idempotent_on_positive _ (by decide)⟩
